import Mathlib

/-!
Verification development for the Vikunja MCP server (src/vikunja_mcp/server.py).

This file gives a shallow embedding of the pure algorithmic core of the server:

* Python dict primitives (assoc lists with first-occurrence lookup and
  in-place-style key assignment);
* the recursive configuration deep merge `_deep_merge`;
* the fractional position allocator shared by `_set_task_position_impl`
  (apply_sort branch) and `_batch_create_tasks_impl` (auto-sort step 9),
  including a faithful embedding of Python's `bisect.bisect_left` binary
  search (with an explicit fuel argument bounding the loop iteration count);
* the sequential same-bucket placement loop of step 9;
* the sort-key extractors `_get_task_sort_key` / `_get_input_sort_key`;
* the batch steps that build the ref map and create relations (steps 5 and 7
  of `_batch_create_tasks_impl`);
* the config-defaults application step and the missing-bucket creation step;
* the template date expansion of `_create_from_template_impl`.

Numeric positions (Python floats) are modelled as rationals; the operations
used (halving, adding 1000, arithmetic mean) are exact on the inputs the
claims are about.  Datetimes are modelled as integer minutes since an epoch,
with a calendar day being 1440 consecutive minutes; `strftime` to a
00:00:00 / 23:59:00 boundary becomes flooring to the day.  Python truthiness
on optional strings and lists (where `None`, the empty string and the empty
list are all falsy) is modelled explicitly.
-/

/-- First-occurrence lookup in an assoc list: Python `d[k]` / `d.get(k)`. -/
def assocGet {β : Type} : List (String × β) → String → Option β
  | [], _ => none
  | (k', v) :: rest, k => if k' = k then some v else assocGet rest k

/-- Python dict assignment `d[k] = v`: replace the value at the first
occurrence of `k`, keeping its position, or append a fresh binding at the
end (insertion order semantics of Python 3.7+ dicts). -/
def assocSet {β : Type} : List (String × β) → String → β → List (String × β)
  | [], k, v => [(k, v)]
  | (k', v') :: rest, k, v =>
      if k' = k then (k', v) :: rest else (k', v') :: assocSet rest k v

/-- A Python/YAML value as stored in the configuration document:
strings, integers, booleans, lists and string-keyed mappings. -/
inductive PyVal where
  | vstr : String → PyVal
  | vint : Int → PyVal
  | vbool : Bool → PyVal
  | vlist : List PyVal → PyVal
  | vdict : List (String × PyVal) → PyVal

/-- A Python dict: an assoc list of string keys and values. -/
abbrev PyDict := List (String × PyVal)

mutual

/-- Embedding of `_deep_merge(base, updates)` (server.py lines 72-80):
`result = base.copy()`, then for each `(key, value)` of `updates` in order,
merge recursively when both `result[key]` and `value` are dicts, otherwise
assign `result[key] = value`. -/
def deep_merge (base updates : PyDict) : PyDict :=
  match updates with
  | [] => base
  | (k, v) :: rest => deep_merge (deepMergeKey base k v) rest
termination_by sizeOf updates
decreasing_by all_goals simp_wf <;> omega

/-- One iteration of the `_deep_merge` loop body for the pair `(k, v)`. -/
def deepMergeKey (base : PyDict) (k : String) (v : PyVal) : PyDict :=
  match assocGet base k, v with
  | some (PyVal.vdict d1), PyVal.vdict d2 =>
      assocSet base k (PyVal.vdict (deep_merge d1 d2))
  | _, _ => assocSet base k v
termination_by sizeOf v
decreasing_by all_goals simp_wf <;> omega

end

/-- The loop body of Python's `bisect.bisect_left(a, x)` with an explicit
fuel argument: while `lo < hi`, take `mid = (lo + hi) / 2` and move `lo` past
`mid` when `a[mid] < x`, else move `hi` down to `mid`.  Each iteration
shrinks `hi - lo` by at least one, so fuel `len(a)` is always enough; the
out-of-fuel branch is never reached in any call made by this file. -/
def bisect_left_aux {K : Type} [LinearOrder K] (a : List K) (x : K) :
    Nat → Nat → Nat → Nat
  | 0, lo, _ => lo
  | fuel + 1, lo, hi =>
      if lo < hi then
        let mid := (lo + hi) / 2
        if a.getD mid x < x then bisect_left_aux a x fuel (mid + 1) hi
        else bisect_left_aux a x fuel lo mid
      else lo

/-- Python's `bisect.bisect_left(a, x)`: binary search with `lo = 0`,
`hi = len(a)`. -/
def bisect_left {K : Type} [LinearOrder K] (a : List K) (x : K) : Nat :=
  bisect_left_aux a x a.length 0 a.length

/-- The position allocator shared by `_set_task_position_impl` (lines
506-520) and step 9 of `_batch_create_tasks_impl` (lines 1357-1375):
binary-search the key sequence of `existing_sorted` for the insertion index
of `new_key`, then pick 1000 for an empty sequence, half of the first
position (or -1000 when that position is not positive) at the head, last
position + 1000 at the tail, and the midpoint of the two neighboring
positions otherwise. -/
def allocate_position {K : Type} [LinearOrder K]
    (existing_sorted : List (K × ℚ)) (new_key : K) : ℚ :=
  let existing_keys := existing_sorted.map Prod.fst
  let insert_idx := bisect_left existing_keys new_key
  if existing_sorted.length = 0 then
    1000
  else if insert_idx = 0 then
    let first_pos := (existing_sorted.map Prod.snd).getD 0 0
    if first_pos > 0 then first_pos / 2 else -1000
  else if existing_sorted.length ≤ insert_idx then
    let last_pos := (existing_sorted.map Prod.snd).getD (existing_sorted.length - 1) 0
    last_pos + 1000
  else
    let prev_pos := (existing_sorted.map Prod.snd).getD (insert_idx - 1) 0
    let next_pos := (existing_sorted.map Prod.snd).getD insert_idx 0
    (prev_pos + next_pos) / 2

/-- Reference allocator transcribed from the wording of claim C1: `i` is the
leftmost insertion index of the new key in the existing key sequence — for a
sorted key sequence, the number of keys strictly below the new key — and the
result is 1000 on an empty sequence, half the first existing position if that
position is positive and -1000 otherwise when `i = 0`, the last existing
position + 1000 when `i` equals the sequence length, and the arithmetic mean
of the positions at indices `i - 1` and `i` otherwise. -/
def allocSpec {K : Type} [LinearOrder K]
    (existing : List (K × ℚ)) (new_key : K) : ℚ :=
  let i := (existing.map Prod.fst).countP (fun k => decide (k < new_key))
  if existing.length = 0 then
    1000
  else if i = 0 then
    let first_pos := (existing.map Prod.snd).getD 0 0
    if first_pos > 0 then first_pos / 2 else -1000
  else if i = existing.length then
    (existing.map Prod.snd).getD (existing.length - 1) 0 + 1000
  else
    ((existing.map Prod.snd).getD (i - 1) 0 + (existing.map Prod.snd).getD i 0) / 2

/-- Python `list.insert(i, x)` for `i ≤ len(l)` (the only way it is called
here): insert `x` so that it ends up at index `i`. -/
def insertAt {α : Type} (l : List α) (i : Nat) (x : α) : List α :=
  l.take i ++ x :: l.drop i

/-- One iteration of the per-bucket placement loop in step 9 of
`_batch_create_tasks_impl` (lines 1353-1384): compute the insertion index
and the allocator position for `new_key` against the working sequence `ws`,
then insert the computed pair into the working sequence at that index.
Returns the updated working sequence and the computed position. -/
def placeOne {K : Type} [LinearOrder K] (ws : List (K × ℚ)) (new_key : K) :
    List (K × ℚ) × ℚ :=
  let insert_idx := bisect_left (ws.map Prod.fst) new_key
  let new_pos := allocate_position ws new_key
  (insertAt ws insert_idx (new_key, new_pos), new_pos)

/-- The whole per-bucket placement loop of step 9: process the new keys in
input order, each against the working sequence left by its predecessors.
Returns the final working sequence and the (key, position) pairs issued to
the position-set call, in processing order. -/
def placeAll {K : Type} [LinearOrder K] (ws : List (K × ℚ)) :
    List K → List (K × ℚ) × List (K × ℚ)
  | [] => (ws, [])
  | k :: ks =>
      let step := placeOne ws k
      let rest := placeAll step.1 ks
      (rest.1, (k, step.2) :: rest.2)

/-- A sort key produced by the extractors: a string (dates, titles) or an
integer (priority, created id, unknown strategy).  Keys of one strategy are
only ever compared with keys of the same strategy. -/
inductive SortKey where
  | s : String → SortKey
  | i : Int → SortKey
deriving DecidableEq

/-- Python `v or d` for an optional string: `None` and `""` are falsy and
give the default. -/
def pyOrStr (v : Option String) (d : String) : String :=
  match v with
  | none => d
  | some s => if s = "" then d else s

/-- Python `v or d` for an optional integer: `None` and `0` are falsy and
give the default. -/
def pyOrInt (v : Option Int) (d : Int) : Int :=
  match v with
  | none => d
  | some n => if n = 0 then d else n

/-- The fields of a Vikunja API task dict read by `_get_task_sort_key`;
`none` models both an absent key and an explicit `None` value. -/
structure TaskRecord where
  id : Option Int := none
  title : Option String := none
  start_date : Option String := none
  end_date : Option String := none
  due_date : Option String := none
  priority : Option Int := none
deriving DecidableEq

/-- Embedding of `_get_task_sort_key(task, strategy)` (lines 850-864). -/
def get_task_sort_key (task : TaskRecord) (strategy : String) : SortKey :=
  if strategy = "start_date" then SortKey.s (pyOrStr task.start_date "9999-12-31")
  else if strategy = "due_date" then SortKey.s (pyOrStr task.due_date "9999-12-31")
  else if strategy = "end_date" then SortKey.s (pyOrStr task.end_date "9999-12-31")
  else if strategy = "priority" then SortKey.i (-(pyOrInt task.priority 0))
  else if strategy = "alphabetical" then SortKey.s (pyOrStr task.title "").toLower
  else if strategy = "created" then SortKey.i (pyOrInt task.id 0)
  else SortKey.i 0

/-- The fields of a batch-create task input dict (schema documented in
`_batch_create_tasks_impl`).  `title` is required by the schema; every other
field models `dict.get` access, with `none` for an absent key. -/
structure TaskInput where
  title : String := ""
  start_date : Option String := none
  end_date : Option String := none
  due_date : Option String := none
  priority : Option Int := none
  labels : Option (List String) := none
  bucket : Option String := none
  ref : Option String := none
  blocked_by : List String := []
  blocks : List String := []
  subtask_of : Option String := none
deriving DecidableEq

/-- Embedding of `_get_input_sort_key(task_input, created_task, strategy)`
(lines 867-881); the `created` strategy reads the identifier of the
already-created task. -/
def get_input_sort_key (task_input : TaskInput) (created_task : TaskRecord)
    (strategy : String) : SortKey :=
  if strategy = "start_date" then SortKey.s (pyOrStr task_input.start_date "9999-12-31")
  else if strategy = "due_date" then SortKey.s (pyOrStr task_input.due_date "9999-12-31")
  else if strategy = "end_date" then SortKey.s (pyOrStr task_input.end_date "9999-12-31")
  else if strategy = "priority" then SortKey.i (-(pyOrInt task_input.priority 0))
  else if strategy = "alphabetical" then SortKey.s task_input.title.toLower
  else if strategy = "created" then SortKey.i (pyOrInt created_task.id 0)
  else SortKey.i 0

/-- The task record carrying a task input's sortable fields together with
the created task's service-assigned identifier; used to compare the two
extractor shapes. -/
def inputAsRecord (task_input : TaskInput) (created_task : TaskRecord) : TaskRecord :=
  { id := created_task.id, title := some task_input.title,
    start_date := task_input.start_date, end_date := task_input.end_date,
    due_date := task_input.due_date, priority := task_input.priority }

/-- Python truthiness of an optional string: `None` and `""` are falsy. -/
def truthyStr : Option String → Bool
  | none => false
  | some v => !(v == "")

/-- Python truthiness of an optional list: `None` and `[]` are falsy. -/
def truthyList : Option (List String) → Bool
  | none => false
  | some l => !l.isEmpty

/-- The two config fields read by the defaults step, as produced by
`project_config.get("default_labels", [])` and
`project_config.get("default_bucket", "")`. -/
structure ProjectDefaults where
  default_labels : List String := []
  default_bucket : String := ""
deriving DecidableEq

/-- The config-defaults loop body of `_batch_create_tasks_impl` (lines
1134-1140) for one task input: when `apply_default_labels` is set, the task
has no truthy labels and the config's default_labels list is nonempty, a
copy of the default labels is written; then, when the task has no truthy
bucket and the config's default_bucket is nonempty, the default bucket is
written. -/
def applyConfigDefaults (cfg : ProjectDefaults) (apply_default_labels : Bool)
    (task : TaskInput) : TaskInput :=
  let task1 :=
    if apply_default_labels && !truthyList task.labels && !cfg.default_labels.isEmpty then
      { task with labels := some cfg.default_labels }
    else task
  if !truthyStr task1.bucket && !(cfg.default_bucket == "") then
    { task1 with bucket := some cfg.default_bucket }
  else task1

/-- The whole defaults loop over the caller's task list (the Python loop
mutates the dicts in place; the embedding returns the list the later phases
observe). -/
def applyConfigDefaultsAll (cfg : ProjectDefaults) (apply_default_labels : Bool)
    (tasks : List TaskInput) : List TaskInput :=
  tasks.map (applyConfigDefaults cfg apply_default_labels)

/-- First-occurrence deduplication: the contents of a Python set built by
inserting the elements of a list in order. -/
def dedupFirst : List String → List String
  | [] => []
  | x :: xs => x :: (dedupFirst xs).filter (fun y => !(y == x))

/-- The `needed_buckets` set of step 4 of `_batch_create_tasks_impl` (lines
1187-1191): bucket names referenced by some task (truthy values only) that
are not in the existing name-to-id map.  The list holds the set's contents
in first-reference order; the Python set's own iteration order is
implementation-defined and is modelled separately as an enumeration. -/
def missingBucketNames (tasks : List TaskInput) (bucket_map : List (String × Int)) :
    List String :=
  dedupFirst (tasks.filterMap (fun t =>
    match t.bucket with
    | none => none
    | some b =>
        if b = "" then none
        else if (assocGet bucket_map b).isSome then none
        else some b))

/-- The missing-bucket creation loop (lines 1193-1198): the i-th name of the
set enumeration `enum_order` is created with position
`len(existing_buckets) + i`.  Returns the (name, position) pairs passed to
`_create_bucket_impl`, in creation order. -/
def createMissingBuckets (existing_count : Nat) (enum_order : List String) :
    List (String × Int) :=
  enum_order.enum.map (fun p => (p.2, (existing_count : Int) + p.1))

/-- A created task as returned by `_create_task_impl`: the service-assigned
identifier and the echoed title. -/
structure CreatedTask where
  id : Int
  title : String
deriving DecidableEq

/-- Step 5 of `_batch_create_tasks_impl` with every service call succeeding:
the k-th task input is created with the k-th service-assigned identifier. -/
def createAll (tasks : List TaskInput) (ids : List Int) : List (TaskInput × CreatedTask) :=
  (tasks.zip ids).map (fun p => (p.1, { id := p.2, title := p.1.title }))

/-- The ref registration of step 5 (lines 1226-1228): `if ref:
ref_map[ref] = created_task["id"]`; an empty-string ref is falsy and is not
registered. -/
def registerRef (ref_map : List (String × Int)) (p : TaskInput × CreatedTask) :
    List (String × Int) :=
  match p.1.ref with
  | none => ref_map
  | some r => if r = "" then ref_map else assocSet ref_map r p.2.id

/-- The ref map accumulated over the whole creation loop. -/
def buildRefMap (created : List (TaskInput × CreatedTask)) : List (String × Int) :=
  created.foldl registerRef []

/-- A relation-creation call
`_create_task_relation_impl(task_id, kind, other_id)`. -/
structure Relation where
  task_id : Int
  kind : String
  other_id : Int
deriving DecidableEq

/-- The error message recorded for an unresolvable ref (the quoting
punctuation of the Python f-string is elided). -/
def unknownRefMsg (r field_name : String) (task_id : Int) : String :=
  "Unknown ref " ++ r ++ " in " ++ field_name ++ " for task " ++ toString task_id

/-- One `for ref in task_input.get(field, [])` loop of step 7: resolve each
entry through the ref map; a resolved entry yields one relation of `kind`
and one increment of `relations_created`; an unresolved entry yields one
error message.  Returns (relations, count, errors) in processing order. -/
def processRefs (ref_map : List (String × Int)) (task_id : Int)
    (kind field_name : String) : List String → List Relation × Nat × List String
  | [] => ([], 0, [])
  | r :: rest =>
      let done := processRefs ref_map task_id kind field_name rest
      match assocGet ref_map r with
      | some other => (Relation.mk task_id kind other :: done.1, done.2.1 + 1, done.2.2)
      | none => (done.1, done.2.1, unknownRefMsg r field_name task_id :: done.2.2)

/-- The `subtask_of` handling of step 7 for one created task: a truthy
`subtask_of` ref creates one "parenttask" relation when it resolves, and one
error message otherwise. -/
def subtaskRelations (ref_map : List (String × Int)) (p : TaskInput × CreatedTask) :
    List Relation × Nat × List String :=
  match p.1.subtask_of with
  | none => ([], 0, [])
  | some pr =>
      if pr = "" then ([], 0, [])
      else
        match assocGet ref_map pr with
        | some parent_id => ([Relation.mk p.2.id "parenttask" parent_id], 1, [])
        | none => ([], 0, [unknownRefMsg pr "subtask_of" p.2.id])

/-- Step 7 processing for one created task: `blocked_by` entries create
"blocked" relations, `blocks` entries create "blocking" relations, and a
truthy `subtask_of` ref creates one "parenttask" relation. -/
def taskRelations (ref_map : List (String × Int)) (p : TaskInput × CreatedTask) :
    List Relation × Nat × List String :=
  let bb := processRefs ref_map p.2.id "blocked" "blocked_by" p.1.blocked_by
  let bl := processRefs ref_map p.2.id "blocking" "blocks" p.1.blocks
  let st := subtaskRelations ref_map p
  (bb.1 ++ bl.1 ++ st.1, bb.2.1 + bl.2.1 + st.2.1, bb.2.2 ++ bl.2.2 ++ st.2.2)

/-- Step 7 over all created tasks, in creation order. -/
def relationPhase (ref_map : List (String × Int)) :
    List (TaskInput × CreatedTask) → List Relation × Nat × List String
  | [] => ([], 0, [])
  | p :: rest =>
      let here := taskRelations ref_map p
      let there := relationPhase ref_map rest
      (here.1 ++ there.1, here.2.1 + there.2.1, here.2.2 ++ there.2.2)

/-- The parts of the batch-create report produced by steps 5 and 7: the
created count, the (ref, id, title) entries, the relation calls issued, the
relations_created counter and the error strings of the relation phase. -/
structure BatchReport where
  created : Nat
  tasks : List (Option String × Int × String)
  relations : List Relation
  relations_created : Nat
  errors : List String
deriving DecidableEq

/-- Steps 5 and 7 of `_batch_create_tasks_impl` with every service call
succeeding: create all tasks (the k-th getting identifier `ids[k]`), build
the ref map over the whole batch, then create relations against the fully
populated map. -/
def batchCreateRelations (tasks : List TaskInput) (ids : List Int) : BatchReport :=
  let created := createAll tasks ids
  let ref_map := buildRefMap created
  let rels := relationPhase ref_map created
  { created := created.length,
    tasks := created.map (fun p => (p.1.ref, p.2.id, p.2.title)),
    relations := rels.1,
    relations_created := rels.2.1,
    errors := rels.2.2 }

/-- Midnight (00:00:00) of the calendar day containing minute instant `t`:
the `strftime` boundary with pattern `%Y-%m-%dT00:00:00Z`. -/
def dayStart (t : Int) : Int := t.fdiv 1440 * 1440

/-- 23:59:00 of the calendar day containing minute instant `t`: the
`strftime` boundary with pattern `%Y-%m-%dT23:59:00Z`. -/
def dayLastMinute (t : Int) : Int := dayStart t + 1439

/-- The date computation for one task definition in
`_create_from_template_impl` (lines 1923-1932): `start_dt` is the anchor
plus the offset hours, `end_dt` is `start_dt` plus the duration hours, and
then *both* the start and the end date strings are formatted from
`start_dt` — the computed `end_dt` is never used.  Returns the pair of
minute instants (start_date, end_date). -/
def expandTaskDates (anchor offset_hours duration_hours : Int) : Int × Int :=
  let start_dt := anchor + offset_hours * 60
  let _end_dt := start_dt + duration_hours * 60
  (dayStart start_dt, dayLastMinute start_dt)

/-- The date computation as the specification words it: start at 00:00:00 of
the start instant's date and end at 23:59:00 of the end instant's date, each
boundary taken on its own computed date. -/
def expandTaskDatesSpec (anchor offset_hours duration_hours : Int) : Int × Int :=
  let start_dt := anchor + offset_hours * 60
  let end_dt := start_dt + duration_hours * 60
  (dayStart start_dt, dayLastMinute end_dt)

/-! ### Helper lemmas -/

theorem assocGet_assocSet_self {β : Type} (l : List (String × β)) (k : String) (v : β) :
    assocGet (assocSet l k v) k = some v := by
  induction l with
  | nil => simp [assocSet, assocGet]
  | cons hd tl ih =>
      by_cases h : hd.1 = k
      · simp [assocSet, h, assocGet]
      · simp [assocSet, h, assocGet, ih]

theorem assocGet_assocSet_ne {β : Type} (l : List (String × β)) (k k' : String) (v : β)
    (h : k ≠ k') : assocGet (assocSet l k v) k' = assocGet l k' := by
  induction l with
  | nil => simp [assocSet, assocGet, h]
  | cons hd tl ih =>
      by_cases hh : hd.1 = k
      · simp [assocSet, hh, assocGet, h]
      · simp [assocSet, hh, assocGet, ih]

theorem pyOrInt_zero (v : Option Int) : pyOrInt v 0 = v.getD 0 := by
  cases v with
  | none => rfl
  | some n => by_cases h : n = 0 <;> simp [pyOrInt, h]

theorem pyOrStr_empty (v : Option String) : pyOrStr v "" = v.getD "" := by
  cases v with
  | none => rfl
  | some s => by_cases h : s = "" <;> simp [pyOrStr, h]

/-! ### Claim C5: template date expansion -/

/-- Claim C5 fails on the code: with anchor at minute 0 (a midnight), offset
0 and duration 48 hours, the code formats the end boundary from the *start*
instant (the computed end instant is dead code), giving 23:59 of the start's
own day (minute 1439); the claimed computation gives 23:59 of the end
instant's day (minute 4319). -/
theorem C5_template_dates_divergence :
    expandTaskDates 0 0 48 = (0, 1439) ∧
    expandTaskDatesSpec 0 0 48 = (0, 4319) ∧
    expandTaskDates 0 0 48 ≠ expandTaskDatesSpec 0 0 48 := by
  refine ⟨rfl, rfl, ?_⟩
  decide

/-! ### Claim C8: sort-key extractors -/

/-- Claim C8 counterexample: a task record that *stores* the empty string in
`start_date` gets the sentinel maximum date key, not its stored (empty) date
string, because Python `or` treats the empty string like a missing value. -/
theorem C8_sort_key_counterexample :
    get_task_sort_key { start_date := some "" } "start_date" = SortKey.s "9999-12-31" ∧
    SortKey.s "9999-12-31" ≠ SortKey.s "" := by
  exact ⟨rfl, by decide⟩

/-- Claim C8 (amended): the extractor returns the stored date string for the
three date strategies, with the sentinel maximum date string when the field
is missing *or empty* (Python falsiness), so undated items sort last; the
negated priority (default 0) for priority; the lower-cased title (empty when
absent) for alphabetical; the service-assigned identifier for created (0
when absent); and key 0 for any unknown strategy.  The pre-creation input
shape has identical semantics, with the created key taken from the
post-creation identifier. -/
theorem C8_sort_key_extractor (t : TaskRecord) (ti : TaskInput) (c : TaskRecord) :
    (∀ s, t.start_date = some s → s ≠ "" →
        get_task_sort_key t "start_date" = SortKey.s s) ∧
    ((t.start_date = none ∨ t.start_date = some "") →
        get_task_sort_key t "start_date" = SortKey.s "9999-12-31") ∧
    (∀ s, t.due_date = some s → s ≠ "" →
        get_task_sort_key t "due_date" = SortKey.s s) ∧
    ((t.due_date = none ∨ t.due_date = some "") →
        get_task_sort_key t "due_date" = SortKey.s "9999-12-31") ∧
    (∀ s, t.end_date = some s → s ≠ "" →
        get_task_sort_key t "end_date" = SortKey.s s) ∧
    ((t.end_date = none ∨ t.end_date = some "") →
        get_task_sort_key t "end_date" = SortKey.s "9999-12-31") ∧
    get_task_sort_key t "priority" = SortKey.i (-(t.priority.getD 0)) ∧
    get_task_sort_key t "alphabetical" = SortKey.s ((t.title.getD "").toLower) ∧
    (∀ n, t.id = some n → get_task_sort_key t "created" = SortKey.i n) ∧
    (t.id = none → get_task_sort_key t "created" = SortKey.i 0) ∧
    (∀ strat, strat ∉ ["start_date", "due_date", "end_date", "priority",
        "alphabetical", "created"] → get_task_sort_key t strat = SortKey.i 0) ∧
    (∀ strat, get_input_sort_key ti c strat =
        get_task_sort_key (inputAsRecord ti c) strat) := by
  refine ⟨?_, ?_, ?_, ?_, ?_, ?_, ?_, ?_, ?_, ?_, ?_, ?_⟩
  · intro s hs hne; simp [get_task_sort_key, hs, pyOrStr, hne]
  · rintro (hs | hs) <;> simp [get_task_sort_key, hs, pyOrStr]
  · intro s hs hne; simp [get_task_sort_key, hs, pyOrStr, hne]
  · rintro (hs | hs) <;> simp [get_task_sort_key, hs, pyOrStr]
  · intro s hs hne; simp [get_task_sort_key, hs, pyOrStr, hne]
  · rintro (hs | hs) <;> simp [get_task_sort_key, hs, pyOrStr]
  · simp [get_task_sort_key, pyOrInt_zero]
  · simp [get_task_sort_key, pyOrStr_empty]
  · intro n hn; simp [get_task_sort_key, hn, pyOrInt_zero]
  · intro hn; simp [get_task_sort_key, hn, pyOrInt]
  · intro strat h
    simp only [List.mem_cons, List.not_mem_nil, or_false, not_or] at h
    obtain ⟨h1, h2, h3, h4, h5, h6⟩ := h
    simp [get_task_sort_key, h1, h2, h3, h4, h5, h6]
  · intro strat
    unfold get_input_sort_key get_task_sort_key inputAsRecord
    split_ifs <;> simp [pyOrStr_empty]

/-- Claim C8 witness: the amended theorem instantiated at a record storing a
real date, a task input with a mixed-case title, and a created record. -/
theorem C8_sort_key_witness :
    get_task_sort_key { start_date := some "2025-01-10" } "start_date" =
      SortKey.s "2025-01-10" := by
  exact (C8_sort_key_extractor { start_date := some "2025-01-10" } {} {}).1
    "2025-01-10" rfl (by decide)

/-! ### Claim C10: config-defaults application -/

/-- Claim C10: with a stored configuration present, the defaults step maps
each caller-supplied task input as follows — a task lacking truthy labels
gains a copy of the config's (nonempty) default_labels exactly when
apply_default_labels is set, a task lacking a truthy bucket gains the
config's (nonempty) default_bucket, tasks already carrying labels or a
bucket keep them, a falsy config default leaves the field untouched, and no
other field of any task input is modified.  (The Python loop mutates the
dicts in place; the embedding returns the list the later phases observe.) -/
theorem applyConfigDefaults_eq (cfg : ProjectDefaults) (adl : Bool) (t : TaskInput) :
    applyConfigDefaults cfg adl t =
      { t with
        labels := if adl && !truthyList t.labels && !cfg.default_labels.isEmpty
            then some cfg.default_labels else t.labels,
        bucket := if !truthyStr t.bucket && !(cfg.default_bucket == "")
            then some cfg.default_bucket else t.bucket } := by
  unfold applyConfigDefaults
  by_cases h1 : (adl && !truthyList t.labels && !cfg.default_labels.isEmpty) = true <;>
    by_cases h2 : (!truthyStr t.bucket && !(cfg.default_bucket == "")) = true <;>
      simp [h1, h2]

theorem C10_defaults_application (cfg : ProjectDefaults) (adl : Bool)
    (tasks : List TaskInput) (t : TaskInput) (ht : t ∈ tasks) :
    applyConfigDefaults cfg adl t ∈ applyConfigDefaultsAll cfg adl tasks ∧
    (adl = true → truthyList t.labels = false → cfg.default_labels ≠ [] →
      (applyConfigDefaults cfg adl t).labels = some cfg.default_labels) ∧
    (truthyList t.labels = true →
      (applyConfigDefaults cfg adl t).labels = t.labels) ∧
    (adl = false → (applyConfigDefaults cfg adl t).labels = t.labels) ∧
    (cfg.default_labels = [] → (applyConfigDefaults cfg adl t).labels = t.labels) ∧
    (truthyStr t.bucket = false → cfg.default_bucket ≠ "" →
      (applyConfigDefaults cfg adl t).bucket = some cfg.default_bucket) ∧
    (truthyStr t.bucket = true →
      (applyConfigDefaults cfg adl t).bucket = t.bucket) ∧
    (cfg.default_bucket = "" → (applyConfigDefaults cfg adl t).bucket = t.bucket) ∧
    (applyConfigDefaults cfg adl t).title = t.title ∧
    (applyConfigDefaults cfg adl t).start_date = t.start_date ∧
    (applyConfigDefaults cfg adl t).end_date = t.end_date ∧
    (applyConfigDefaults cfg adl t).due_date = t.due_date ∧
    (applyConfigDefaults cfg adl t).priority = t.priority ∧
    (applyConfigDefaults cfg adl t).ref = t.ref ∧
    (applyConfigDefaults cfg adl t).blocked_by = t.blocked_by ∧
    (applyConfigDefaults cfg adl t).blocks = t.blocks ∧
    (applyConfigDefaults cfg adl t).subtask_of = t.subtask_of := by
  refine ⟨List.mem_map_of_mem _ ht, ?_, ?_, ?_, ?_, ?_, ?_, ?_, ?_, ?_, ?_, ?_, ?_, ?_, ?_, ?_, ?_⟩ <;>
    intros <;> simp only [applyConfigDefaults_eq] <;> split_ifs <;> simp_all

/-- Claim C10 witness: a task with no bucket and no labels picks up both
defaults, a task already carrying them keeps its own. -/
theorem C10_defaults_witness :
    (applyConfigDefaults { default_labels := ["bread"], default_bucket := "Backlog" }
        true { title := "bake" }).bucket = some "Backlog" ∧
    (applyConfigDefaults { default_labels := ["bread"], default_bucket := "Backlog" }
        true { title := "bake" }).labels = some ["bread"] ∧
    (applyConfigDefaults { default_labels := ["bread"], default_bucket := "Backlog" }
        true { title := "mix", bucket := some "Doing", labels := some ["x"] }).bucket =
      some "Doing" := by
  have h1 := C10_defaults_application
    { default_labels := ["bread"], default_bucket := "Backlog" } true
    [{ title := "bake" }] { title := "bake" } (by simp)
  have h2 := C10_defaults_application
    { default_labels := ["bread"], default_bucket := "Backlog" } true
    [{ title := "mix", bucket := some "Doing", labels := some ["x"] }]
    { title := "mix", bucket := some "Doing", labels := some ["x"] } (by simp)
  refine ⟨h1.2.2.2.2.2.1 (by decide) (by decide), ?_, h2.2.2.2.2.2.2.1 (by decide)⟩
  exact h1.2.1 rfl (by decide) (by decide)

/-! ### Claim C4: configuration deep merge -/

theorem deep_merge_nil (base : PyDict) : deep_merge base [] = base := by
  unfold deep_merge
  rfl

theorem deep_merge_cons (base : PyDict) (k : String) (v : PyVal) (rest : PyDict) :
    deep_merge base ((k, v) :: rest) = deep_merge (deepMergeKey base k v) rest := by
  conv_lhs => unfold deep_merge

theorem assocGet_eq_none {β : Type} (l : List (String × β)) (k : String)
    (h : k ∉ l.map Prod.fst) : assocGet l k = none := by
  induction l with
  | nil => rfl
  | cons hd tl ih =>
      simp only [List.map_cons, List.mem_cons, not_or] at h
      simp [assocGet, Ne.symm h.1, ih h.2]

theorem assocGet_deepMergeKey_ne (base : PyDict) (k0 : String) (v : PyVal) (k : String)
    (h : k0 ≠ k) : assocGet (deepMergeKey base k0 v) k = assocGet base k := by
  unfold deepMergeKey
  split <;> exact assocGet_assocSet_ne _ _ _ _ h

theorem assocGet_deepMergeKey_self (base : PyDict) (k0 : String) (v : PyVal) :
    assocGet (deepMergeKey base k0 v) k0 =
      some (match assocGet base k0, v with
        | some (PyVal.vdict d1), PyVal.vdict d2 => PyVal.vdict (deep_merge d1 d2)
        | _, _ => v) := by
  unfold deepMergeKey
  split <;> rw [assocGet_assocSet_self]

/-- Claim C4: per-key characterization of the deep merge.  For every key of
a well-formed (duplicate-free) updates dict: when both the existing and the
new value are mappings, the result holds their recursive merge; otherwise
the new value replaces the existing one wholesale; every key absent from
updates keeps its base value (in particular all of base's other keys are
retained).  The embedding is a pure function of both dicts, so neither input
is mutated. -/
theorem C4_deep_merge_characterization (base updates : PyDict)
    (hu : (updates.map Prod.fst).Nodup) (k : String) :
    assocGet (deep_merge base updates) k =
      match assocGet updates k, assocGet base k with
      | none, bv => bv
      | some (PyVal.vdict d2), some (PyVal.vdict d1) =>
          some (PyVal.vdict (deep_merge d1 d2))
      | some v, _ => some v := by
  induction updates generalizing base with
  | nil => simp [deep_merge_nil, assocGet]
  | cons hd tl ih =>
      obtain ⟨k0, v0⟩ := hd
      simp only [List.map_cons, List.nodup_cons] at hu
      obtain ⟨hk0, htl⟩ := hu
      rw [deep_merge_cons]
      by_cases hkk : k0 = k
      · subst hkk
        rw [ih _ htl, assocGet_eq_none tl k0 hk0]
        have hself := assocGet_deepMergeKey_self base k0 v0
        have hupd : assocGet ((k0, v0) :: tl) k0 = some v0 := by simp [assocGet]
        rw [hself, hupd]
        cases hb : assocGet base k0 with
        | none => cases v0 <;> simp
        | some bv => cases bv <;> cases v0 <;> simp
      · have hupd : assocGet ((k0, v0) :: tl) k = assocGet tl k := by
          simp [assocGet, hkk]
        rw [ih _ htl, assocGet_deepMergeKey_ne _ _ _ _ hkk, hupd]

/-- Claim C4 witness: the characterization applied to the specification's
own example — merging a nested mapping under key "a" merges recursively. -/
theorem C4_deep_merge_witness :
    assocGet (deep_merge [("a", PyVal.vdict [("b", PyVal.vint 1)])]
        [("a", PyVal.vdict [("c", PyVal.vint 2)])]) "a" =
      some (PyVal.vdict (deep_merge [("b", PyVal.vint 1)] [("c", PyVal.vint 2)])) := by
  exact C4_deep_merge_characterization _ _ (by decide) "a"

/-! ### Claim C1: the position allocator cases -/

theorem bisect_left_aux_spec {K : Type} [LinearOrder K] (a : List K) (x : K)
    (hs : List.Sorted (· ≤ ·) a) :
    ∀ (fuel lo hi : Nat), hi ≤ a.length → lo ≤ hi → hi - lo ≤ fuel →
    (∀ (j : Nat) (hj : j < a.length), j < lo → a[j] < x) →
    (∀ (j : Nat) (hj : j < a.length), hi ≤ j → ¬ a[j] < x) →
    bisect_left_aux a x fuel lo hi ≤ a.length ∧
    (∀ (j : Nat) (hj : j < a.length), j < bisect_left_aux a x fuel lo hi → a[j] < x) ∧
    (∀ (j : Nat) (hj : j < a.length), bisect_left_aux a x fuel lo hi ≤ j → ¬ a[j] < x) := by
  intro fuel
  induction fuel with
  | zero =>
      intro lo hi hhi hlo hfuel h1 h2
      have heq : lo = hi := by omega
      subst heq
      simp only [bisect_left_aux]
      exact ⟨by omega, h1, fun j hj hle => h2 j hj hle⟩
  | succ fuel ih =>
      intro lo hi hhi hlo hfuel h1 h2
      by_cases hlh : lo < hi
      · have hmidlt : (lo + hi) / 2 < hi := by omega
        have hmidge : lo ≤ (lo + hi) / 2 := by omega
        have hmidlen : (lo + hi) / 2 < a.length := lt_of_lt_of_le hmidlt hhi
        simp only [bisect_left_aux, if_pos hlh]
        rw [List.getD_eq_getElem a x hmidlen]
        by_cases hx : a[(lo + hi) / 2] < x
        · rw [if_pos hx]
          refine ih ((lo + hi) / 2 + 1) hi hhi (by omega) (by omega) ?_ h2
          intro j hj hjlt
          rcases Nat.lt_or_ge j lo with hc | hc
          · exact h1 j hj hc
          · have hjm : j ≤ (lo + hi) / 2 := by omega
            rcases Nat.eq_or_lt_of_le hjm with he | hl
            · subst he; exact hx
            · exact lt_of_le_of_lt
                (List.pairwise_iff_getElem.mp hs j ((lo + hi) / 2) hj hmidlen hl) hx
        · rw [if_neg hx]
          refine ih lo ((lo + hi) / 2) (le_of_lt hmidlen) (by omega) (by omega) h1 ?_
          intro j hj hge
          rcases Nat.eq_or_lt_of_le hge with he | hl
          · subst he; exact hx
          · intro hcon
            exact hx (lt_of_le_of_lt
              (List.pairwise_iff_getElem.mp hs ((lo + hi) / 2) j hmidlen hj hl) hcon)
      · have heq : lo = hi := by omega
        subst heq
        simp only [bisect_left_aux, if_neg hlh]
        exact ⟨by omega, h1, fun j hj hle => h2 j hj hle⟩

theorem bisect_left_spec {K : Type} [LinearOrder K] (a : List K) (x : K)
    (hs : List.Sorted (· ≤ ·) a) :
    bisect_left a x ≤ a.length ∧
    (∀ (j : Nat) (hj : j < a.length), j < bisect_left a x → a[j] < x) ∧
    (∀ (j : Nat) (hj : j < a.length), bisect_left a x ≤ j → ¬ a[j] < x) := by
  unfold bisect_left
  exact bisect_left_aux_spec a x hs a.length 0 a.length le_rfl (Nat.zero_le _) (by omega)
    (fun j hj hcon => absurd hcon (Nat.not_lt_zero j))
    (fun j hj hge => absurd hj (by omega))

theorem countP_eq_of_split {α : Type} (p : α → Bool) :
    ∀ (l : List α) (r : Nat), r ≤ l.length →
    (∀ (j : Nat) (hj : j < l.length), j < r → p l[j]) →
    (∀ (j : Nat) (hj : j < l.length), r ≤ j → ¬ p l[j]) →
    l.countP p = r := by
  intro l
  induction l with
  | nil =>
      intro r hr _ _
      simp only [List.length_nil, Nat.le_zero] at hr
      simp [hr]
  | cons hd tl ih =>
      intro r hr h1 h2
      cases r with
      | zero =>
          rw [List.countP_eq_zero]
          intro b hb
          obtain ⟨j, hj, hbe⟩ := List.mem_iff_getElem.mp hb
          subst hbe
          exact h2 j hj (Nat.zero_le j)
      | succ r' =>
          have hp : p hd := by
            have := h1 0 (by simp) (Nat.succ_pos r')
            simpa using this
          have hcc : List.countP p (hd :: tl) = List.countP p tl + 1 := by
            simp [hp]
          rw [hcc]
          have htl : tl.countP p = r' := by
            refine ih r' (by simpa using hr) ?_ ?_
            · intro j hj hjlt
              have := h1 (j + 1) (by simpa using hj) (by omega)
              simpa using this
            · intro j hj hge
              have := h2 (j + 1) (by simpa using hj) (by omega)
              simpa using this
          omega

theorem bisect_left_eq_countP {K : Type} [LinearOrder K] (a : List K) (x : K)
    (hs : List.Sorted (· ≤ ·) a) :
    bisect_left a x = a.countP (fun k => decide (k < x)) := by
  obtain ⟨hle, h1, h2⟩ := bisect_left_spec a x hs
  exact (countP_eq_of_split _ a _ hle
    (fun j hj hlt => by simpa using h1 j hj hlt)
    (fun j hj hge => by simpa using h2 j hj hge)).symm

/-- Claim C1: on a key-sorted existing sequence the allocator computes
exactly the function described by the claim — with `i` the leftmost
insertion index of the new key: 1000 for an empty sequence; for `i = 0`
half the first existing position when it is positive and -1000 otherwise;
for `i` equal to the sequence length the last existing position + 1000; and
otherwise the arithmetic mean of the positions at indices `i - 1` and `i`. -/
theorem C1_position_allocator {K : Type} [LinearOrder K]
    (existing : List (K × ℚ)) (new_key : K)
    (hs : List.Sorted (· ≤ ·) (existing.map Prod.fst)) :
    allocate_position existing new_key = allocSpec existing new_key := by
  simp only [allocate_position, allocSpec]
  rw [bisect_left_eq_countP _ _ hs]
  have hcp : (existing.map Prod.fst).countP (fun k => decide (k < new_key)) ≤
      existing.length := by
    have h := List.countP_le_length
      (p := fun k => decide (k < new_key)) (l := existing.map Prod.fst)
    simpa using h
  split_ifs <;> first | rfl | omega | (exfalso; omega)

/-- Claim C1 witness: a new key falling between the two existing keys gets
the midpoint of their positions. -/
theorem C1_position_allocator_witness :
    allocate_position [((3 : Int), (500 : ℚ)), (7, 1500)] 5 = 1000 := by
  have h := C1_position_allocator [((3 : Int), (500 : ℚ)), (7, 1500)] 5 (by decide)
  rw [h]
  norm_num [allocSpec]

/-! ### Claim C2: the allocator preserves the dual ordering -/

theorem map_insertAt {α β : Type} (f : α → β) (l : List α) (i : Nat) (x : α) :
    (insertAt l i x).map f = insertAt (l.map f) i (f x) := by
  simp [insertAt, List.map_take, List.map_drop]

theorem sorted_insertAt {α : Type} {r : α → α → Prop} {l : List α} {i : Nat} {x : α}
    (hl : List.Pairwise r l) (hi : i ≤ l.length)
    (h1 : ∀ (j : Nat) (hj : j < l.length), j < i → r l[j] x)
    (h2 : ∀ (j : Nat) (hj : j < l.length), i ≤ j → r x l[j]) :
    List.Pairwise r (insertAt l i x) := by
  unfold insertAt
  rw [List.pairwise_append]
  refine ⟨hl.sublist (List.take_sublist i l), ?_, ?_⟩
  · rw [List.pairwise_cons]
    refine ⟨?_, hl.sublist (List.drop_sublist i l)⟩
    intro b hb
    obtain ⟨j, hj, hbe⟩ := List.mem_iff_getElem.mp hb
    subst hbe
    have hjlen : i + j < l.length := by
      have := hj; simp only [List.length_drop] at this; omega
    simp only [List.getElem_drop]
    exact h2 (i + j) hjlen (by omega)
  · intro a ha b hb
    obtain ⟨j, hj, hae⟩ := List.mem_iff_getElem.mp ha
    subst hae
    have hjl : j < i := by
      have := hj; simp only [List.length_take] at this; omega
    have hjlen : j < l.length := by omega
    simp only [List.getElem_take]
    rcases List.mem_cons.mp hb with rfl | hbd
    · exact h1 j hjlen hjl
    · obtain ⟨j2, hj2, hbe⟩ := List.mem_iff_getElem.mp hbd
      subst hbe
      have hj2len : i + j2 < l.length := by
        have := hj2; simp only [List.length_drop] at this; omega
      simp only [List.getElem_drop]
      exact List.pairwise_iff_getElem.mp hl j (i + j2) hjlen hj2len (by omega)

theorem allocate_position_empty {K : Type} [LinearOrder K]
    (existing : List (K × ℚ)) (new_key : K) (h0 : existing.length = 0) :
    allocate_position existing new_key = 1000 := by
  simp only [allocate_position]
  rw [if_pos h0]

theorem allocate_position_head {K : Type} [LinearOrder K]
    (existing : List (K × ℚ)) (new_key : K) (h0 : ¬ existing.length = 0)
    (hi : bisect_left (existing.map Prod.fst) new_key = 0) :
    allocate_position existing new_key =
      if (existing.map Prod.snd).getD 0 0 > 0
      then (existing.map Prod.snd).getD 0 0 / 2 else -1000 := by
  simp only [allocate_position]
  rw [if_neg h0, if_pos hi]

theorem allocate_position_tail {K : Type} [LinearOrder K]
    (existing : List (K × ℚ)) (new_key : K) (h0 : ¬ existing.length = 0)
    (hi : ¬ bisect_left (existing.map Prod.fst) new_key = 0)
    (hend : existing.length ≤ bisect_left (existing.map Prod.fst) new_key) :
    allocate_position existing new_key =
      (existing.map Prod.snd).getD (existing.length - 1) 0 + 1000 := by
  simp only [allocate_position]
  rw [if_neg h0, if_neg hi, if_pos hend]

theorem allocate_position_mid {K : Type} [LinearOrder K]
    (existing : List (K × ℚ)) (new_key : K) (h0 : ¬ existing.length = 0)
    (hi : ¬ bisect_left (existing.map Prod.fst) new_key = 0)
    (hend : ¬ existing.length ≤ bisect_left (existing.map Prod.fst) new_key) :
    allocate_position existing new_key =
      ((existing.map Prod.snd).getD (bisect_left (existing.map Prod.fst) new_key - 1) 0 +
       (existing.map Prod.snd).getD (bisect_left (existing.map Prod.fst) new_key) 0) / 2 := by
  simp only [allocate_position]
  rw [if_neg h0, if_neg hi, if_neg hend]

/-- Claim C2 (amended): for every existing sequence ascending both by key
and by position in which every position is at least -1000 (the allocator's
head-insertion fallback), inserting the pair (new key, allocated position)
at the leftmost binary-search rank of the new key yields a sequence that is
again ascending both by key and by position.  Without the position bound
the claim fails: the head fallback -1000 can land above a first position
that lies below -1000 (see the counterexample). -/
theorem C2_allocator_preserves_order {K : Type} [LinearOrder K]
    (existing : List (K × ℚ)) (new_key : K)
    (hk : List.Sorted (· ≤ ·) (existing.map Prod.fst))
    (hp : List.Sorted (· ≤ ·) (existing.map Prod.snd))
    (hlow : ∀ q ∈ existing.map Prod.snd, (-1000 : ℚ) ≤ q) :
    List.Sorted (· ≤ ·) ((insertAt existing (bisect_left (existing.map Prod.fst) new_key)
        (new_key, allocate_position existing new_key)).map Prod.fst) ∧
    List.Sorted (· ≤ ·) ((insertAt existing (bisect_left (existing.map Prod.fst) new_key)
        (new_key, allocate_position existing new_key)).map Prod.snd) := by
  obtain ⟨hle, hlt, hge⟩ := bisect_left_spec (existing.map Prod.fst) new_key hk
  have hlenk : (existing.map Prod.fst).length = existing.length := by simp
  have hlenp : (existing.map Prod.snd).length = existing.length := by simp
  rw [map_insertAt, map_insertAt]
  dsimp only
  have hpg := List.pairwise_iff_getElem.mp hp
  constructor
  · exact sorted_insertAt hk hle
      (fun j hj hjlt => le_of_lt (hlt j hj hjlt))
      (fun j hj hjge => le_of_not_lt (hge j hj hjge))
  · refine sorted_insertAt hp (by omega) ?_ ?_
    · intro j hj hjlt
      have hj' : j < existing.length := by omega
      have h0 : ¬ existing.length = 0 := by omega
      by_cases hend : existing.length ≤ bisect_left (existing.map Prod.fst) new_key
      · have hlast : existing.length - 1 < (existing.map Prod.snd).length := by omega
        rw [allocate_position_tail _ _ h0 (by omega) hend,
            List.getD_eq_getElem _ 0 hlast]
        have hple : (existing.map Prod.snd)[j] ≤
            (existing.map Prod.snd)[existing.length - 1] := by
          rcases Nat.eq_or_lt_of_le (by omega : j ≤ existing.length - 1) with he | hl
          · subst he; exact le_rfl
          · exact hpg j (existing.length - 1) (by omega) (by omega) hl
        linarith
      · have hi0 : ¬ bisect_left (existing.map Prod.fst) new_key = 0 := by omega
        have hb1 : bisect_left (existing.map Prod.fst) new_key - 1 <
            (existing.map Prod.snd).length := by omega
        have hb2 : bisect_left (existing.map Prod.fst) new_key <
            (existing.map Prod.snd).length := by omega
        rw [allocate_position_mid _ _ h0 hi0 hend,
            List.getD_eq_getElem _ 0 hb1, List.getD_eq_getElem _ 0 hb2]
        have hmle : (existing.map Prod.snd)[bisect_left (existing.map Prod.fst) new_key - 1] ≤
            (existing.map Prod.snd)[bisect_left (existing.map Prod.fst) new_key] :=
          hpg _ _ hb1 hb2 (by omega)
        have hjle : (existing.map Prod.snd)[j] ≤
            (existing.map Prod.snd)[bisect_left (existing.map Prod.fst) new_key - 1] := by
          rcases Nat.eq_or_lt_of_le
              (by omega : j ≤ bisect_left (existing.map Prod.fst) new_key - 1) with he | hl
          · subst he; exact le_rfl
          · exact hpg _ _ (by omega) hb1 hl
        linarith
    · intro j hj hjge
      have hj' : j < existing.length := by omega
      have h0 : ¬ existing.length = 0 := by omega
      by_cases hi0 : bisect_left (existing.map Prod.fst) new_key = 0
      · have hfirstlt : 0 < (existing.map Prod.snd).length := by omega
        rw [allocate_position_head _ _ h0 hi0, List.getD_eq_getElem _ 0 hfirstlt]
        have h0j : (existing.map Prod.snd)[0] ≤ (existing.map Prod.snd)[j] := by
          rcases Nat.eq_or_lt_of_le (Nat.zero_le j) with he | hl
          · subst he; exact le_rfl
          · exact hpg 0 j hfirstlt (by omega) hl
        by_cases hpos : (existing.map Prod.snd)[0] > 0
        · rw [if_pos hpos]; linarith
        · rw [if_neg hpos]
          have hmem := hlow ((existing.map Prod.snd)[0]) (List.getElem_mem hfirstlt)
          linarith
      · have hend : ¬ existing.length ≤ bisect_left (existing.map Prod.fst) new_key := by
          omega
        have hb1 : bisect_left (existing.map Prod.fst) new_key - 1 <
            (existing.map Prod.snd).length := by omega
        have hb2 : bisect_left (existing.map Prod.fst) new_key <
            (existing.map Prod.snd).length := by omega
        rw [allocate_position_mid _ _ h0 hi0 hend,
            List.getD_eq_getElem _ 0 hb1, List.getD_eq_getElem _ 0 hb2]
        have hmle : (existing.map Prod.snd)[bisect_left (existing.map Prod.fst) new_key - 1] ≤
            (existing.map Prod.snd)[bisect_left (existing.map Prod.fst) new_key] :=
          hpg _ _ hb1 hb2 (by omega)
        have hij : (existing.map Prod.snd)[bisect_left (existing.map Prod.fst) new_key] ≤
            (existing.map Prod.snd)[j] := by
          rcases Nat.eq_or_lt_of_le hjge with he | hl
          · subst he; exact le_rfl
          · exact hpg _ _ hb2 (by omega) hl
        linarith

/-- Claim C2 counterexample: the sequence [(key 0, position -2000)] is
ascending by key and by position, yet inserting a smaller key receives the
head fallback position -1000, which sorts *after* -2000 — the resulting
sequence is no longer ascending by position. -/
theorem C2_order_counterexample :
    List.Sorted (· ≤ ·) ([((0 : Int), (-2000 : ℚ))].map Prod.fst) ∧
    List.Sorted (· ≤ ·) ([((0 : Int), (-2000 : ℚ))].map Prod.snd) ∧
    ¬ List.Sorted (· ≤ ·) ((insertAt [((0 : Int), (-2000 : ℚ))]
        (bisect_left ([((0 : Int), (-2000 : ℚ))].map Prod.fst) (-1))
        ((-1 : Int), allocate_position [((0 : Int), (-2000 : ℚ))] (-1))).map Prod.snd) := by
  refine ⟨by decide, by decide, ?_⟩
  intro hcon
  have h1 : allocate_position [((0 : Int), (-2000 : ℚ))] (-1) = -1000 := by
    rw [allocate_position_head _ _ (by decide) (by decide)]
    norm_num
  rw [h1] at hcon
  have h2 : bisect_left ([((0 : Int), (-2000 : ℚ))].map Prod.fst) (-1) = 0 := by decide
  rw [h2] at hcon
  simp [insertAt, List.Sorted] at hcon
  norm_num at hcon

/-- Claim C2 witness: the amended theorem at a two-element ascending
sequence with positive positions. -/
theorem C2_order_witness :
    List.Sorted (· ≤ ·) ((insertAt [((2 : Int), (500 : ℚ)), (8, 1500)]
        (bisect_left ([((2 : Int), (500 : ℚ)), (8, 1500)].map Prod.fst) 5)
        ((5 : Int), allocate_position [((2 : Int), (500 : ℚ)), (8, 1500)] 5)).map Prod.fst) ∧
    List.Sorted (· ≤ ·) ((insertAt [((2 : Int), (500 : ℚ)), (8, 1500)]
        (bisect_left ([((2 : Int), (500 : ℚ)), (8, 1500)].map Prod.fst) 5)
        ((5 : Int), allocate_position [((2 : Int), (500 : ℚ)), (8, 1500)] 5)).map Prod.snd) := by
  exact C2_allocator_preserves_order [((2 : Int), (500 : ℚ)), (8, 1500)] 5
    (by decide) (by decide) (by intro q hq; fin_cases hq <;> norm_num)

/-! ### Claim C3: sequential same-bucket placement -/

theorem insertAt_perm {α : Type} (l : List α) (i : Nat) (x : α) :
    (insertAt l i x).Perm (x :: l) := by
  unfold insertAt
  have h : (l.take i ++ x :: l.drop i).Perm (x :: (l.take i ++ l.drop i)) :=
    List.perm_middle
  rw [List.take_append_drop] at h
  exact h

/-- Claim C3: in the per-bucket placement loop, the head task's computed
(key, position) pair is inserted into the working sequence at its insertion
index *before* the remaining tasks are processed — the tail runs against the
updated working sequence — and consequently the final working sequence holds
exactly the original entries together with every pair placed during the
call, so each later task sees all earlier same-call siblings as neighbors. -/
theorem C3_sequential_placement {K : Type} [LinearOrder K] :
    (∀ (ws : List (K × ℚ)) (k : K) (ks : List K),
      placeAll ws (k :: ks) =
        ((placeAll (insertAt ws (bisect_left (ws.map Prod.fst) k)
            (k, allocate_position ws k)) ks).1,
         (k, allocate_position ws k) ::
           (placeAll (insertAt ws (bisect_left (ws.map Prod.fst) k)
              (k, allocate_position ws k)) ks).2)) ∧
    (∀ (ws : List (K × ℚ)) (ks : List K),
      (placeAll ws ks).1.Perm (ws ++ (placeAll ws ks).2)) := by
  constructor
  · intro ws k ks
    rfl
  · intro ws ks
    induction ks generalizing ws with
    | nil => simp [placeAll]
    | cons k ks ih =>
        show (placeAll (insertAt ws (bisect_left (ws.map Prod.fst) k)
            (k, allocate_position ws k)) ks).1.Perm
          (ws ++ (k, allocate_position ws k) ::
            (placeAll (insertAt ws (bisect_left (ws.map Prod.fst) k)
              (k, allocate_position ws k)) ks).2)
        refine (ih _).trans ?_
        refine (List.Perm.append_right _ (insertAt_perm ws _ _)).trans ?_
        exact List.perm_middle.symm

/-! ### Claim C9: missing-bucket creation -/

theorem mem_dedupFirst (x : String) : ∀ (l : List String), x ∈ dedupFirst l ↔ x ∈ l := by
  intro l
  induction l with
  | nil => simp [dedupFirst]
  | cons hd tl ih =>
      rw [dedupFirst]
      by_cases hx : x = hd
      · subst hx; simp
      · simp [List.mem_filter, ih, hx]

/-- Claim C9 (amended): with bucket auto-create enabled, the missing-bucket
step creates exactly the set of (truthy) bucket names referenced by some
task and absent from the existing name-to-id map, each exactly once, the
i-th created bucket (along the Python set's implementation-defined
enumeration order) receiving numeric position `len(existing_buckets) + i`.
Creation order follows the set's enumeration order — not necessarily the
order of first reference — and the assigned positions count existing
buckets rather than exceeding their position values. -/
theorem C9_missing_buckets (tasks : List TaskInput) (bucket_map : List (String × Int))
    (existing_count : Nat) (enum_order : List String)
    (hperm : enum_order.Perm (missingBucketNames tasks bucket_map)) :
    ((createMissingBuckets existing_count enum_order).map Prod.fst).Perm
        (missingBucketNames tasks bucket_map) ∧
    (createMissingBuckets existing_count enum_order).map Prod.snd =
      (List.range enum_order.length).map (fun i : Nat => (existing_count : Int) + i) ∧
    (∀ name ∈ (createMissingBuckets existing_count enum_order).map Prod.fst,
      name ≠ "" ∧ assocGet bucket_map name = none ∧ ∃ t ∈ tasks, t.bucket = some name) := by
  have hfst : (createMissingBuckets existing_count enum_order).map Prod.fst = enum_order := by
    unfold createMissingBuckets
    rw [List.map_map, show (Prod.fst ∘ fun p : Nat × String =>
      (p.2, (existing_count : Int) + p.1)) = Prod.snd from rfl,
      List.enum_eq_enumFrom, List.enumFrom_map_snd]
  refine ⟨?_, ?_, ?_⟩
  · rw [hfst]; exact hperm
  · have h1 : enum_order.enum.map Prod.fst = List.range enum_order.length := by
      rw [List.enum_eq_enumFrom, List.enumFrom_map_fst, List.range_eq_range']
    unfold createMissingBuckets
    rw [List.map_map, ← h1, List.map_map]
    rfl
  · intro name hname
    rw [hfst] at hname
    have hmem : name ∈ missingBucketNames tasks bucket_map := hperm.mem_iff.mp hname
    unfold missingBucketNames at hmem
    rw [mem_dedupFirst] at hmem
    obtain ⟨t, ht, hft⟩ := List.mem_filterMap.mp hmem
    cases hb : t.bucket with
    | none => rw [hb] at hft; simp at hft
    | some b =>
        rw [hb] at hft
        by_cases hbe : b = ""
        · simp [hbe] at hft
        · by_cases hbm : (assocGet bucket_map b).isSome
          · simp [hbe, hbm] at hft
          · simp [hbe, hbm] at hft
            subst hft
            refine ⟨hbe, ?_, ⟨t, ht, hb⟩⟩
            cases hgm : assocGet bucket_map b with
            | none => rfl
            | some v => rw [hgm] at hbm; simp at hbm

/-- Claim C9 counterexample: with tasks first referencing bucket "A" and
then bucket "B" (neither existing), the reversed enumeration ["B", "A"] is a
perfectly valid iteration order of the Python set of missing names, and
under it the buckets are created in the order B, A — not in first-reference
order; moreover with one existing bucket the new bucket gets numeric
position 1, which does not place it after an existing bucket whose position
value is 5. -/
theorem C9_missing_buckets_counterexample :
    (["B", "A"] : List String).Perm (missingBucketNames
      [{ title := "t1", bucket := some "A" }, { title := "t2", bucket := some "B" }] []) ∧
    (createMissingBuckets 0 ["B", "A"]).map Prod.fst ≠ ["A", "B"] ∧
    createMissingBuckets 1 ["X"] = [("X", 1)] ∧ ¬ ((5 : Int) < 1) := by
  refine ⟨by decide, by decide, by decide, by decide⟩

/-- Claim C9 witness: the amended theorem at a concrete input. -/
theorem C9_missing_buckets_witness :
    ((createMissingBuckets 2 ["A"]).map Prod.fst).Perm
        (missingBucketNames [{ title := "t1", bucket := some "A" }] []) ∧
    (createMissingBuckets 2 ["A"]).map Prod.snd =
      (List.range (["A"] : List String).length).map (fun i : Nat => (2 : Int) + i) ∧
    (∀ name ∈ (createMissingBuckets 2 ["A"]).map Prod.fst,
      name ≠ "" ∧ assocGet ([] : List (String × Int)) name = none ∧
      ∃ t ∈ [({ title := "t1", bucket := some "A" } : TaskInput)], t.bucket = some name) := by
  exact C9_missing_buckets [{ title := "t1", bucket := some "A" }] [] 2 ["A"] (by decide)

/-! ### Claims C6 and C7: ref map and relation creation -/

theorem processRefs_errors (rm : List (String × Int)) (tid : Int) (kind fn : String)
    (refs : List String) :
    (processRefs rm tid kind fn refs).2.2 =
      (refs.filter (fun x => (assocGet rm x).isNone)).map (fun x => unknownRefMsg x fn tid) := by
  induction refs with
  | nil => rfl
  | cons r rest ih =>
      simp only [processRefs]
      cases hg : assocGet rm r <;> simp [hg, List.filter_cons, ih]

theorem processRefs_count (rm : List (String × Int)) (tid : Int) (kind fn : String)
    (refs : List String) :
    (processRefs rm tid kind fn refs).2.1 =
      refs.countP (fun x => (assocGet rm x).isSome) := by
  induction refs with
  | nil => rfl
  | cons r rest ih =>
      simp only [processRefs]
      cases hg : assocGet rm r <;> simp [hg, List.countP_cons, ih]

theorem processRefs_relations (rm : List (String × Int)) (tid : Int) (kind fn : String)
    (refs : List String) :
    (processRefs rm tid kind fn refs).1 =
      refs.filterMap (fun x => (assocGet rm x).map (fun other => Relation.mk tid kind other)) := by
  induction refs with
  | nil => rfl
  | cons r rest ih =>
      simp only [processRefs]
      cases hg : assocGet rm r <;> simp [hg, List.filterMap_cons, ih]

theorem processRefs_mem (rm : List (String × Int)) (tid : Int) (kind fn : String)
    (refs : List String) :
    ∀ rel ∈ (processRefs rm tid kind fn refs).1, rel.task_id = tid ∧ rel.kind = kind := by
  intro rel hrel
  rw [processRefs_relations] at hrel
  obtain ⟨x, _, hx⟩ := List.mem_filterMap.mp hrel
  cases hg : assocGet rm x with
  | none => rw [hg] at hx; simp at hx
  | some v => rw [hg] at hx; simp at hx; subst hx; exact ⟨rfl, rfl⟩

theorem processRefs_count_rel (rm : List (String × Int)) (tid : Int) (kind fn : String)
    (refs : List String) (v : Int) :
    (processRefs rm tid kind fn refs).1.count (Relation.mk tid kind v) =
      refs.countP (fun x => assocGet rm x == some v) := by
  induction refs with
  | nil => rfl
  | cons r rest ih =>
      simp only [processRefs]
      cases hg : assocGet rm r with
      | none => simp [List.countP_cons, hg, ih]
      | some other =>
          simp only [List.countP_cons, hg, List.count_cons, ih]
          by_cases ho : other = v
          · subst ho; simp
          · simp [ho, Relation.mk.injEq]

theorem subtaskRelations_mem (rm : List (String × Int)) (p : TaskInput × CreatedTask) :
    ∀ rel ∈ (subtaskRelations rm p).1, rel.task_id = p.2.id ∧ rel.kind = "parenttask" := by
  intro rel hst
  unfold subtaskRelations at hst
  cases hs : p.1.subtask_of with
  | none => rw [hs] at hst; simp at hst
  | some pr =>
      rw [hs] at hst
      dsimp only at hst
      by_cases hpr : pr = ""
      · simp [hpr] at hst
      · rw [if_neg hpr] at hst
        cases hg : assocGet rm pr with
        | none => rw [hg] at hst; simp at hst
        | some pid =>
            rw [hg] at hst
            simp at hst
            subst hst
            exact ⟨rfl, rfl⟩

theorem taskRelations_rels (rm : List (String × Int)) (p : TaskInput × CreatedTask) :
    (taskRelations rm p).1 =
      (processRefs rm p.2.id "blocked" "blocked_by" p.1.blocked_by).1 ++
      (processRefs rm p.2.id "blocking" "blocks" p.1.blocks).1 ++
      (subtaskRelations rm p).1 := rfl

theorem taskRelations_mem (rm : List (String × Int)) (p : TaskInput × CreatedTask) :
    ∀ rel ∈ (taskRelations rm p).1, rel.task_id = p.2.id ∧
      (rel.kind = "blocked" ∨ rel.kind = "blocking" ∨ rel.kind = "parenttask") := by
  intro rel hrel
  unfold taskRelations at hrel
  simp only [List.mem_append] at hrel
  rcases hrel with (hbb | hbl) | hst
  · obtain ⟨h1, h2⟩ := processRefs_mem rm p.2.id "blocked" "blocked_by" p.1.blocked_by rel hbb
    exact ⟨h1, Or.inl h2⟩
  · obtain ⟨h1, h2⟩ := processRefs_mem rm p.2.id "blocking" "blocks" p.1.blocks rel hbl
    exact ⟨h1, Or.inr (Or.inl h2)⟩
  · obtain ⟨h1, h2⟩ := subtaskRelations_mem rm p rel hst
    exact ⟨h1, Or.inr (Or.inr h2)⟩

theorem relationPhase_cons (rm : List (String × Int)) (p : TaskInput × CreatedTask)
    (rest : List (TaskInput × CreatedTask)) :
    relationPhase rm (p :: rest) =
      ((taskRelations rm p).1 ++ (relationPhase rm rest).1,
       (taskRelations rm p).2.1 + (relationPhase rm rest).2.1,
       (taskRelations rm p).2.2 ++ (relationPhase rm rest).2.2) := rfl

theorem relationPhase_append (rm : List (String × Int))
    (l1 l2 : List (TaskInput × CreatedTask)) :
    relationPhase rm (l1 ++ l2) =
      ((relationPhase rm l1).1 ++ (relationPhase rm l2).1,
       (relationPhase rm l1).2.1 + (relationPhase rm l2).2.1,
       (relationPhase rm l1).2.2 ++ (relationPhase rm l2).2.2) := by
  induction l1 with
  | nil => simp [relationPhase]
  | cons p rest ih =>
      simp only [List.cons_append, relationPhase_cons, ih, List.append_assoc, Nat.add_assoc]

theorem relationPhase_mem_rel (rm : List (String × Int))
    (created : List (TaskInput × CreatedTask)) :
    ∀ rel ∈ (relationPhase rm created).1, ∃ p ∈ created, rel ∈ (taskRelations rm p).1 := by
  induction created with
  | nil => simp [relationPhase]
  | cons q rest ih =>
      intro rel hrel
      rw [relationPhase_cons] at hrel
      rcases List.mem_append.mp hrel with h | h
      · exact ⟨q, List.mem_cons_self q rest, h⟩
      · obtain ⟨p, hp, hp2⟩ := ih rel h
        exact ⟨p, List.mem_cons_of_mem q hp, hp2⟩

theorem relationPhase_mem_errors (rm : List (String × Int))
    (created : List (TaskInput × CreatedTask)) (p : TaskInput × CreatedTask)
    (hp : p ∈ created) (x : String) (hx : x ∈ (taskRelations rm p).2.2) :
    x ∈ (relationPhase rm created).2.2 := by
  induction created with
  | nil => simp at hp
  | cons q rest ih =>
      rw [relationPhase_cons]
      rcases List.mem_cons.mp hp with rfl | hmem
      · exact List.mem_append_left _ hx
      · exact List.mem_append_right _ (ih hmem)

theorem createAll_length (tasks : List TaskInput) (ids : List Int)
    (hlen : ids.length = tasks.length) :
    (createAll tasks ids).length = tasks.length := by
  simp [createAll, hlen]

theorem createAll_get (tasks : List TaskInput) (ids : List Int) (j : Nat)
    (hj : j < tasks.length) (hj2 : j < ids.length)
    (hjc : j < (createAll tasks ids).length) :
    (createAll tasks ids).get ⟨j, hjc⟩ =
      (tasks.get ⟨j, hj⟩, { id := ids.get ⟨j, hj2⟩, title := (tasks.get ⟨j, hj⟩).title }) := by
  simp [createAll]

theorem createAll_mem (tasks : List TaskInput) (ids : List Int)
    (p : TaskInput × CreatedTask) (hp : p ∈ createAll tasks ids) :
    ∃ (j : Nat) (hj : j < tasks.length) (hj2 : j < ids.length),
      p = (tasks.get ⟨j, hj⟩, { id := ids.get ⟨j, hj2⟩, title := (tasks.get ⟨j, hj⟩).title }) := by
  obtain ⟨j, hjc, hpe⟩ := List.mem_iff_getElem.mp hp
  have hjlen : j < tasks.length ∧ j < ids.length := by
    have := hjc
    simp only [createAll, List.length_map, List.length_zip] at this
    omega
  refine ⟨j, hjlen.1, hjlen.2, ?_⟩
  rw [← hpe]
  have := createAll_get tasks ids j hjlen.1 hjlen.2 hjc
  simpa using this

theorem assocGet_registerRef_no_bind (acc : List (String × Int))
    (p : TaskInput × CreatedTask) (r : String)
    (h : ¬ (p.1.ref = some r ∧ r ≠ "")) :
    assocGet (registerRef acc p) r = assocGet acc r := by
  unfold registerRef
  cases hr : p.1.ref with
  | none => rfl
  | some s =>
      by_cases hs : s = ""
      · simp [hs]
      · simp only [if_neg hs]
        have hsr : s ≠ r := by
          intro he
          subst he
          exact h ⟨hr, hs⟩
        exact assocGet_assocSet_ne _ _ _ _ hsr

theorem foldl_registerRef_no_bind (r : String) :
    ∀ (l : List (TaskInput × CreatedTask)) (acc : List (String × Int)),
    (∀ p ∈ l, ¬ (p.1.ref = some r ∧ r ≠ "")) →
    assocGet (l.foldl registerRef acc) r = assocGet acc r := by
  intro l
  induction l with
  | nil => intro acc _; rfl
  | cons q rest ih =>
      intro acc h
      rw [List.foldl_cons, ih (registerRef acc q) (fun p hp => h p (List.mem_cons_of_mem q hp)),
        assocGet_registerRef_no_bind acc q r (h q (List.mem_cons_self q rest))]

theorem registerRef_bind (acc : List (String × Int)) (p : TaskInput × CreatedTask)
    (r : String) (hr : p.1.ref = some r) (hne : r ≠ "") :
    registerRef acc p = assocSet acc r p.2.id := by
  unfold registerRef
  split
  · next heq => rw [heq] at hr; exact absurd hr (by simp)
  · next s heq =>
      rw [heq] at hr
      injection hr with hsr
      subst hsr
      rw [if_neg hne]

theorem foldl_registerRef_bound (r : String) (hne : r ≠ "") :
    ∀ (l : List (TaskInput × CreatedTask)) (acc : List (String × Int))
    (n : Nat) (hn : n < l.length),
    (l.get ⟨n, hn⟩).1.ref = some r →
    (∀ (j : Nat) (hj : j < l.length), n < j → ¬ (l.get ⟨j, hj⟩).1.ref = some r) →
    assocGet (l.foldl registerRef acc) r = some (l.get ⟨n, hn⟩).2.id := by
  intro l
  induction l with
  | nil => intro acc n hn; simp at hn
  | cons q rest ih =>
      intro acc n hn hget hlater
      cases n with
      | zero =>
          rw [List.foldl_cons]
          have hnone : ∀ p ∈ rest, ¬ (p.1.ref = some r ∧ r ≠ "") := by
            intro p hp hcon
            obtain ⟨j, hj, hpe⟩ := List.mem_iff_getElem.mp hp
            refine hlater (j + 1) (by simpa using hj) (Nat.succ_pos j) ?_
            simp only [List.get_eq_getElem, List.getElem_cons_succ]
            rw [hpe]
            exact hcon.1
          rw [foldl_registerRef_no_bind r rest (registerRef acc q) hnone]
          simp only [List.get_eq_getElem, List.getElem_cons_zero] at hget ⊢
          rw [registerRef_bind acc q r hget hne]
          exact assocGet_assocSet_self _ _ _
      | succ n' =>
          rw [List.foldl_cons]
          refine ih (registerRef acc q) n' (by simpa using hn) ?_ ?_
          · simpa using hget
          · intro j hj hlt
            have := hlater (j + 1) (by simpa using hj) (by omega)
            simpa using this

theorem foldl_registerRef_lookup_some (r : String) (v : Int) :
    ∀ (l : List (TaskInput × CreatedTask)) (acc : List (String × Int)),
    assocGet (l.foldl registerRef acc) r = some v →
    (∃ p ∈ l, p.1.ref = some r ∧ r ≠ "" ∧ p.2.id = v) ∨ assocGet acc r = some v := by
  intro l
  induction l with
  | nil => intro acc h; exact Or.inr h
  | cons q rest ih =>
      intro acc h
      rw [List.foldl_cons] at h
      rcases ih (registerRef acc q) h with hfound | hacc
      · obtain ⟨p, hp, hprop⟩ := hfound
        exact Or.inl ⟨p, List.mem_cons_of_mem q hp, hprop⟩
      · by_cases hbind : q.1.ref = some r ∧ r ≠ ""
        · rw [registerRef_bind acc q r hbind.1 hbind.2, assocGet_assocSet_self] at hacc
          exact Or.inl ⟨q, List.mem_cons_self q rest, hbind.1, hbind.2,
            Option.some_injective _ hacc⟩
        · rw [assocGet_registerRef_no_bind acc q r hbind] at hacc
          exact Or.inr hacc

theorem filterMap_nodup_index_inj {α β : Type} (f : α → Option β) (l : List α)
    (hnd : (l.filterMap f).Nodup) (j k : Nat) (hj : j < l.length) (hk : k < l.length)
    (b : β) (hfj : f (l.get ⟨j, hj⟩) = some b) (hfk : f (l.get ⟨k, hk⟩) = some b) :
    j = k := by
  rcases Nat.lt_trichotomy j k with hlt | heq | hgt
  · exfalso
    have hsplit : l = l.take (j + 1) ++ l.drop (j + 1) := (List.take_append_drop _ l).symm
    rw [hsplit, List.filterMap_append, List.nodup_append] at hnd
    have hb1 : b ∈ (l.take (j + 1)).filterMap f := by
      rw [List.mem_filterMap]
      refine ⟨l.get ⟨j, hj⟩, ?_, hfj⟩
      rw [List.mem_iff_getElem]
      refine ⟨j, ?_, ?_⟩
      · simp only [List.length_take]
        omega
      · simp
    have hb2 : b ∈ (l.drop (j + 1)).filterMap f := by
      rw [List.mem_filterMap]
      refine ⟨l.get ⟨k, hk⟩, ?_, hfk⟩
      rw [List.mem_iff_getElem]
      refine ⟨k - (j + 1), ?_, ?_⟩
      · simp only [List.length_drop]
        omega
      · simp only [List.getElem_drop, List.get_eq_getElem]
        congr 1
        omega
    exact hnd.2.2 hb1 hb2
  · exact heq
  · exfalso
    have hsplit : l = l.take (k + 1) ++ l.drop (k + 1) := (List.take_append_drop _ l).symm
    rw [hsplit, List.filterMap_append, List.nodup_append] at hnd
    have hb1 : b ∈ (l.take (k + 1)).filterMap f := by
      rw [List.mem_filterMap]
      refine ⟨l.get ⟨k, hk⟩, ?_, hfk⟩
      rw [List.mem_iff_getElem]
      refine ⟨k, ?_, ?_⟩
      · simp only [List.length_take]
        omega
      · simp
    have hb2 : b ∈ (l.drop (k + 1)).filterMap f := by
      rw [List.mem_filterMap]
      refine ⟨l.get ⟨j, hj⟩, ?_, hfj⟩
      rw [List.mem_iff_getElem]
      refine ⟨j - (k + 1), ?_, ?_⟩
      · simp only [List.length_drop]
        omega
      · simp only [List.getElem_drop, List.get_eq_getElem]
        congr 1
        omega
    exact hnd.2.2 hb1 hb2

/-- Claim C7: for every relation entry — a blocked_by entry, a blocks
entry, or a truthy subtask_of ref — of a created task whose ref is absent
from the ref map, the report gains the corresponding error string; each
per-field relation loop produces exactly one error message per unresolvable
entry (its error list is exactly the unresolvable entries mapped to their
messages), increments relations_created only for resolvable entries, and
creates relations only for resolvable entries (the subtask_of path producing
exactly no relation, no count increment and one error message when
unresolvable); and the referencing task itself is still created and counted,
with its (ref, id, title) entry present in the report. -/
theorem C7_unknown_ref (tasks : List TaskInput) (ids : List Int)
    (hlen : ids.length = tasks.length) (m : Nat) (hm : m < tasks.length)
    (hm2 : m < ids.length) :
    (∀ r ∈ (tasks.get ⟨m, hm⟩).blocked_by,
      assocGet (buildRefMap (createAll tasks ids)) r = none →
      unknownRefMsg r "blocked_by" (ids.get ⟨m, hm2⟩) ∈
        (batchCreateRelations tasks ids).errors) ∧
    (∀ r ∈ (tasks.get ⟨m, hm⟩).blocks,
      assocGet (buildRefMap (createAll tasks ids)) r = none →
      unknownRefMsg r "blocks" (ids.get ⟨m, hm2⟩) ∈
        (batchCreateRelations tasks ids).errors) ∧
    (∀ r, (tasks.get ⟨m, hm⟩).subtask_of = some r → r ≠ "" →
      assocGet (buildRefMap (createAll tasks ids)) r = none →
      unknownRefMsg r "subtask_of" (ids.get ⟨m, hm2⟩) ∈
        (batchCreateRelations tasks ids).errors) ∧
    (processRefs (buildRefMap (createAll tasks ids)) (ids.get ⟨m, hm2⟩) "blocked"
        "blocked_by" (tasks.get ⟨m, hm⟩).blocked_by).2.2 =
      ((tasks.get ⟨m, hm⟩).blocked_by.filter
          (fun x => (assocGet (buildRefMap (createAll tasks ids)) x).isNone)).map
        (fun x => unknownRefMsg x "blocked_by" (ids.get ⟨m, hm2⟩)) ∧
    (processRefs (buildRefMap (createAll tasks ids)) (ids.get ⟨m, hm2⟩) "blocking"
        "blocks" (tasks.get ⟨m, hm⟩).blocks).2.2 =
      ((tasks.get ⟨m, hm⟩).blocks.filter
          (fun x => (assocGet (buildRefMap (createAll tasks ids)) x).isNone)).map
        (fun x => unknownRefMsg x "blocks" (ids.get ⟨m, hm2⟩)) ∧
    (processRefs (buildRefMap (createAll tasks ids)) (ids.get ⟨m, hm2⟩) "blocked"
        "blocked_by" (tasks.get ⟨m, hm⟩).blocked_by).2.1 =
      (tasks.get ⟨m, hm⟩).blocked_by.countP
        (fun x => (assocGet (buildRefMap (createAll tasks ids)) x).isSome) ∧
    (processRefs (buildRefMap (createAll tasks ids)) (ids.get ⟨m, hm2⟩) "blocking"
        "blocks" (tasks.get ⟨m, hm⟩).blocks).2.1 =
      (tasks.get ⟨m, hm⟩).blocks.countP
        (fun x => (assocGet (buildRefMap (createAll tasks ids)) x).isSome) ∧
    (processRefs (buildRefMap (createAll tasks ids)) (ids.get ⟨m, hm2⟩) "blocked"
        "blocked_by" (tasks.get ⟨m, hm⟩).blocked_by).1 =
      (tasks.get ⟨m, hm⟩).blocked_by.filterMap
        (fun x => (assocGet (buildRefMap (createAll tasks ids)) x).map
          (fun other => Relation.mk (ids.get ⟨m, hm2⟩) "blocked" other)) ∧
    (processRefs (buildRefMap (createAll tasks ids)) (ids.get ⟨m, hm2⟩) "blocking"
        "blocks" (tasks.get ⟨m, hm⟩).blocks).1 =
      (tasks.get ⟨m, hm⟩).blocks.filterMap
        (fun x => (assocGet (buildRefMap (createAll tasks ids)) x).map
          (fun other => Relation.mk (ids.get ⟨m, hm2⟩) "blocking" other)) ∧
    (∀ r, (tasks.get ⟨m, hm⟩).subtask_of = some r → r ≠ "" →
      assocGet (buildRefMap (createAll tasks ids)) r = none →
      subtaskRelations (buildRefMap (createAll tasks ids))
        (tasks.get ⟨m, hm⟩,
          { id := ids.get ⟨m, hm2⟩, title := (tasks.get ⟨m, hm⟩).title }) =
        ([], 0, [unknownRefMsg r "subtask_of" (ids.get ⟨m, hm2⟩)])) ∧
    (batchCreateRelations tasks ids).created = tasks.length ∧
    ((tasks.get ⟨m, hm⟩).ref, ids.get ⟨m, hm2⟩, (tasks.get ⟨m, hm⟩).title) ∈
      (batchCreateRelations tasks ids).tasks := by
  have hmc : m < (createAll tasks ids).length := by
    rw [createAll_length tasks ids hlen]; exact hm
  have hgm := createAll_get tasks ids m hm hm2 hmc
  have hmsg : ∀ (r fn kind : String) (refs : List String), r ∈ refs →
      assocGet (buildRefMap (createAll tasks ids)) r = none →
      unknownRefMsg r fn (ids.get ⟨m, hm2⟩) ∈
        (processRefs (buildRefMap (createAll tasks ids)) (ids.get ⟨m, hm2⟩)
          kind fn refs).2.2 := by
    intro r fn kind refs hr hnone
    rw [processRefs_errors]
    refine List.mem_map.mpr ⟨r, ?_, rfl⟩
    rw [List.mem_filter]
    exact ⟨hr, by rw [hnone]; rfl⟩
  have hsub : ∀ r, (tasks.get ⟨m, hm⟩).subtask_of = some r → r ≠ "" →
      assocGet (buildRefMap (createAll tasks ids)) r = none →
      subtaskRelations (buildRefMap (createAll tasks ids))
        (tasks.get ⟨m, hm⟩,
          { id := ids.get ⟨m, hm2⟩, title := (tasks.get ⟨m, hm⟩).title }) =
        ([], 0, [unknownRefMsg r "subtask_of" (ids.get ⟨m, hm2⟩)]) := by
    intro r hs hne hnone
    unfold subtaskRelations
    dsimp only
    rw [hs]
    dsimp only
    rw [if_neg hne, hnone]
  refine ⟨?_, ?_, ?_, processRefs_errors _ _ _ _ _, processRefs_errors _ _ _ _ _,
    processRefs_count _ _ _ _ _, processRefs_count _ _ _ _ _,
    processRefs_relations _ _ _ _ _, processRefs_relations _ _ _ _ _,
    hsub, createAll_length tasks ids hlen, ?_⟩
  · intro r hr hnone
    have hmemT : unknownRefMsg r "blocked_by" (ids.get ⟨m, hm2⟩) ∈
        (taskRelations (buildRefMap (createAll tasks ids))
          ((createAll tasks ids).get ⟨m, hmc⟩)).2.2 := by
      rw [hgm]
      exact List.mem_append_left _
        (List.mem_append_left _ (hmsg r "blocked_by" "blocked" _ hr hnone))
    exact relationPhase_mem_errors _ _ _ (List.get_mem _ _ _) _ hmemT
  · intro r hr hnone
    have hmemT : unknownRefMsg r "blocks" (ids.get ⟨m, hm2⟩) ∈
        (taskRelations (buildRefMap (createAll tasks ids))
          ((createAll tasks ids).get ⟨m, hmc⟩)).2.2 := by
      rw [hgm]
      exact List.mem_append_left _
        (List.mem_append_right _ (hmsg r "blocks" "blocking" _ hr hnone))
    exact relationPhase_mem_errors _ _ _ (List.get_mem _ _ _) _ hmemT
  · intro r hs hne hnone
    have hmemT : unknownRefMsg r "subtask_of" (ids.get ⟨m, hm2⟩) ∈
        (taskRelations (buildRefMap (createAll tasks ids))
          ((createAll tasks ids).get ⟨m, hmc⟩)).2.2 := by
      rw [hgm]
      refine List.mem_append_right _ ?_
      rw [show (subtaskRelations (buildRefMap (createAll tasks ids))
          (tasks.get ⟨m, hm⟩,
            { id := ids.get ⟨m, hm2⟩, title := (tasks.get ⟨m, hm⟩).title })).2.2 =
          [unknownRefMsg r "subtask_of" (ids.get ⟨m, hm2⟩)] from by
        rw [hsub r hs hne hnone]]
      exact List.mem_singleton_self _
    exact relationPhase_mem_errors _ _ _ (List.get_mem _ _ _) _ hmemT
  · refine List.mem_map.mpr ⟨(createAll tasks ids).get ⟨m, hmc⟩, List.get_mem _ _ _, ?_⟩
    rw [hgm]

/-- Claim C7 witness: a single task whose blocked_by, blocks and subtask_of
entries all name unknown refs is still created and counted, and the report
carries each of the three error messages. -/
theorem C7_unknown_ref_witness :
    unknownRefMsg "x" "blocked_by" 7 ∈
      (batchCreateRelations [{ title := "t", blocked_by := ["x"], blocks := ["y"], subtask_of := some "z" }] [7]).errors ∧
    unknownRefMsg "y" "blocks" 7 ∈
      (batchCreateRelations [{ title := "t", blocked_by := ["x"], blocks := ["y"], subtask_of := some "z" }] [7]).errors ∧
    unknownRefMsg "z" "subtask_of" 7 ∈
      (batchCreateRelations [{ title := "t", blocked_by := ["x"], blocks := ["y"], subtask_of := some "z" }] [7]).errors ∧
    (batchCreateRelations [{ title := "t", blocked_by := ["x"], blocks := ["y"], subtask_of := some "z" }] [7]).created = 1 := by
  have h := C7_unknown_ref
    [{ title := "t", blocked_by := ["x"], blocks := ["y"], subtask_of := some "z" }]
    [7] rfl 0 (by decide) (by decide)
  exact ⟨h.1 "x" (by decide) rfl, h.2.1 "y" (by decide) rfl,
    h.2.2.1 "z" rfl (by decide) rfl, h.2.2.2.2.2.2.2.2.2.2.1⟩

theorem buildRefMap_resolve (tasks : List TaskInput) (ids : List Int)
    (hlen : ids.length = tasks.length)
    (huniq : (tasks.filterMap TaskInput.ref).Nodup)
    (n : Nat) (hn : n < tasks.length) (hn2 : n < ids.length)
    (r : String) (hr : (tasks.get ⟨n, hn⟩).ref = some r) (hne : r ≠ "") :
    assocGet (buildRefMap (createAll tasks ids)) r = some (ids.get ⟨n, hn2⟩) := by
  have hnc : n < (createAll tasks ids).length := by
    rw [createAll_length tasks ids hlen]; exact hn
  have hgn := createAll_get tasks ids n hn hn2 hnc
  unfold buildRefMap
  have hb := foldl_registerRef_bound r hne (createAll tasks ids) [] n hnc
    (by rw [hgn]; exact hr) ?_
  · rw [hb, hgn]
  · intro j hj hlt hcon
    have hj1 : j < tasks.length := by
      rw [createAll_length tasks ids hlen] at hj; exact hj
    have hj2 : j < ids.length := by omega
    rw [createAll_get tasks ids j hj1 hj2 hj] at hcon
    have hj_eq : j = n :=
      filterMap_nodup_index_inj TaskInput.ref tasks huniq j n hj1 hn r hcon hr
    omega

theorem buildRefMap_inj (tasks : List TaskInput) (ids : List Int)
    (hlen : ids.length = tasks.length) (hids : ids.Nodup)
    (huniq : (tasks.filterMap TaskInput.ref).Nodup)
    (n : Nat) (hn : n < tasks.length) (hn2 : n < ids.length)
    (r : String) (hr : (tasks.get ⟨n, hn⟩).ref = some r)
    (x : String)
    (hx : assocGet (buildRefMap (createAll tasks ids)) x = some (ids.get ⟨n, hn2⟩)) :
    x = r := by
  unfold buildRefMap at hx
  rcases foldl_registerRef_lookup_some x (ids.get ⟨n, hn2⟩) (createAll tasks ids) [] hx
    with h | h
  · obtain ⟨p, hp, hpref, hxne, hpid⟩ := h
    obtain ⟨j, hj, hj2, hpe⟩ := createAll_mem tasks ids p hp
    subst hpe
    have hfin := (List.Nodup.get_inj_iff hids).mp hpid
    have hjn : j = n := by simpa using congrArg Fin.val hfin
    subst hjn
    exact Option.some_injective _ (hpref.symm.trans hr)
  · simp [assocGet] at h

theorem count_eq_zero_of_kind_ne (kind : String) (rels : List Relation)
    (hmem : ∀ rel ∈ rels, rel.kind = kind) (rel0 : Relation) (hk : rel0.kind ≠ kind) :
    rels.count rel0 = 0 := by
  rw [List.count_eq_zero]
  intro hcon
  exact hk (hmem rel0 hcon)

theorem relationPhase_count_at (rm : List (String × Int))
    (created : List (TaskInput × CreatedTask)) (m : Nat) (hmc : m < created.length)
    (rel : Relation)
    (hside : ∀ (j : Nat) (hj : j < created.length), j ≠ m →
      ((created.get ⟨j, hj⟩).2.id ≠ rel.task_id)) :
    (relationPhase rm created).1.count rel =
      (taskRelations rm (created.get ⟨m, hmc⟩)).1.count rel := by
  have hsplit : created =
      created.take m ++ created.get ⟨m, hmc⟩ :: created.drop (m + 1) := by
    rw [List.get_eq_getElem, ← List.drop_eq_getElem_cons hmc, List.take_append_drop]
  conv_lhs => rw [hsplit]
  rw [relationPhase_append, relationPhase_cons]
  simp only [List.count_append]
  have htake : (relationPhase rm (created.take m)).1.count rel = 0 := by
    rw [List.count_eq_zero]
    intro hcon
    obtain ⟨p, hp, hp2⟩ := relationPhase_mem_rel rm _ rel hcon
    obtain ⟨j, hj, hpe⟩ := List.mem_iff_getElem.mp hp
    have hjm : j < m ∧ j < created.length := by
      have := hj
      simp only [List.length_take] at this
      omega
    have hpid := (taskRelations_mem rm p rel hp2).1
    have hpe2 : p = created.get ⟨j, hjm.2⟩ := by
      rw [← hpe]
      simp
    rw [hpe2] at hpid
    exact hside j hjm.2 (by omega) hpid.symm
  have hdrop : (relationPhase rm (created.drop (m + 1))).1.count rel = 0 := by
    rw [List.count_eq_zero]
    intro hcon
    obtain ⟨p, hp, hp2⟩ := relationPhase_mem_rel rm _ rel hcon
    obtain ⟨j, hj, hpe⟩ := List.mem_iff_getElem.mp hp
    have hjm : m + 1 + j < created.length := by
      have := hj
      simp only [List.length_drop] at this
      omega
    have hpid := (taskRelations_mem rm p rel hp2).1
    have hpe2 : p = created.get ⟨m + 1 + j, hjm⟩ := by
      rw [← hpe]
      simp
    rw [hpe2] at hpid
    exact hside (m + 1 + j) hjm (by omega) hpid.symm
  rw [htake, hdrop]
  omega

/-- Claim C6: the ref map is built over the whole batch before relations are
created, so a ref defined by any task of the batch — earlier or later than
the referencing task — resolves to that task's created identifier, and each
blocked_by / blocks / subtask_of entry naming it produces exactly one
relation of the corresponding kind ("blocked" / "blocking" / "parenttask"):
every counted relation matches one entry occurrence. -/
theorem C6_forward_references (tasks : List TaskInput) (ids : List Int)
    (hlen : ids.length = tasks.length) (hids : ids.Nodup)
    (huniq : (tasks.filterMap TaskInput.ref).Nodup)
    (m n : Nat) (hm : m < tasks.length) (hn : n < tasks.length)
    (hm2 : m < ids.length) (hn2 : n < ids.length)
    (r : String) (hr : (tasks.get ⟨n, hn⟩).ref = some r) (hne : r ≠ "") :
    assocGet (buildRefMap (createAll tasks ids)) r = some (ids.get ⟨n, hn2⟩) ∧
    (batchCreateRelations tasks ids).relations.count
        (Relation.mk (ids.get ⟨m, hm2⟩) "blocked" (ids.get ⟨n, hn2⟩)) =
      (tasks.get ⟨m, hm⟩).blocked_by.count r ∧
    (batchCreateRelations tasks ids).relations.count
        (Relation.mk (ids.get ⟨m, hm2⟩) "blocking" (ids.get ⟨n, hn2⟩)) =
      (tasks.get ⟨m, hm⟩).blocks.count r ∧
    (batchCreateRelations tasks ids).relations.count
        (Relation.mk (ids.get ⟨m, hm2⟩) "parenttask" (ids.get ⟨n, hn2⟩)) =
      (if (tasks.get ⟨m, hm⟩).subtask_of = some r then 1 else 0) := by
  have hresolve := buildRefMap_resolve tasks ids hlen huniq n hn hn2 r hr hne
  have hinj : ∀ x, assocGet (buildRefMap (createAll tasks ids)) x =
      some (ids.get ⟨n, hn2⟩) → x = r :=
    fun x hx => buildRefMap_inj tasks ids hlen hids huniq n hn hn2 r hr x hx
  have hmc : m < (createAll tasks ids).length := by
    rw [createAll_length tasks ids hlen]; exact hm
  have hgm := createAll_get tasks ids m hm hm2 hmc
  have hbatch : (batchCreateRelations tasks ids).relations =
      (relationPhase (buildRefMap (createAll tasks ids)) (createAll tasks ids)).1 := rfl
  have hside : ∀ (rel : Relation), rel.task_id = ids.get ⟨m, hm2⟩ →
      ∀ (j : Nat) (hj : j < (createAll tasks ids).length), j ≠ m →
      (((createAll tasks ids).get ⟨j, hj⟩).2.id ≠ rel.task_id) := by
    intro rel hrel j hj hjm hcon
    have hj1 : j < tasks.length := by
      rw [createAll_length tasks ids hlen] at hj; exact hj
    have hj2 : j < ids.length := by omega
    rw [createAll_get tasks ids j hj1 hj2 hj, hrel] at hcon
    have hfin := (List.Nodup.get_inj_iff hids).mp hcon
    exact hjm (by simpa using congrArg Fin.val hfin)
  have hcp : ∀ (refs : List String),
      refs.countP (fun x => assocGet (buildRefMap (createAll tasks ids)) x ==
        some (ids.get ⟨n, hn2⟩)) = refs.count r := by
    intro refs
    have hcg : refs.countP (fun x => assocGet (buildRefMap (createAll tasks ids)) x ==
        some (ids.get ⟨n, hn2⟩)) = refs.countP (fun x => x == r) := by
      refine List.countP_congr ?_
      intro x _
      constructor
      · intro hx
        have hx2 : assocGet (buildRefMap (createAll tasks ids)) x =
            some (ids.get ⟨n, hn2⟩) := by
          exact eq_of_beq hx
        simpa using hinj x hx2
      · intro hx
        have hx2 : x = r := by simpa using hx
        subst hx2
        simp [hresolve]
    rw [hcg, List.count]
  refine ⟨hresolve, ?_, ?_, ?_⟩
  · rw [hbatch, relationPhase_count_at _ _ m hmc _ (hside _ rfl), hgm, taskRelations_rels]
    dsimp only
    rw [List.count_append, List.count_append]
    have hz1 : (processRefs (buildRefMap (createAll tasks ids)) (ids.get ⟨m, hm2⟩)
        "blocking" "blocks" (tasks.get ⟨m, hm⟩).blocks).1.count
        (Relation.mk (ids.get ⟨m, hm2⟩) "blocked" (ids.get ⟨n, hn2⟩)) = 0 := by
      refine count_eq_zero_of_kind_ne "blocking" _ ?_ _ (by simp)
      intro rel hrel
      exact (processRefs_mem _ _ _ _ _ rel hrel).2
    have hz2 : (subtaskRelations (buildRefMap (createAll tasks ids))
        (tasks.get ⟨m, hm⟩,
          { id := ids.get ⟨m, hm2⟩, title := (tasks.get ⟨m, hm⟩).title })).1.count
        (Relation.mk (ids.get ⟨m, hm2⟩) "blocked" (ids.get ⟨n, hn2⟩)) = 0 := by
      refine count_eq_zero_of_kind_ne "parenttask" _ ?_ _ (by simp)
      intro rel hrel
      exact (subtaskRelations_mem _ _ rel hrel).2
    rw [processRefs_count_rel, hz1, hz2, hcp]
    omega
  · rw [hbatch, relationPhase_count_at _ _ m hmc _ (hside _ rfl), hgm, taskRelations_rels]
    dsimp only
    rw [List.count_append, List.count_append]
    have hz1 : (processRefs (buildRefMap (createAll tasks ids)) (ids.get ⟨m, hm2⟩)
        "blocked" "blocked_by" (tasks.get ⟨m, hm⟩).blocked_by).1.count
        (Relation.mk (ids.get ⟨m, hm2⟩) "blocking" (ids.get ⟨n, hn2⟩)) = 0 := by
      refine count_eq_zero_of_kind_ne "blocked" _ ?_ _ (by simp)
      intro rel hrel
      exact (processRefs_mem _ _ _ _ _ rel hrel).2
    have hz2 : (subtaskRelations (buildRefMap (createAll tasks ids))
        (tasks.get ⟨m, hm⟩,
          { id := ids.get ⟨m, hm2⟩, title := (tasks.get ⟨m, hm⟩).title })).1.count
        (Relation.mk (ids.get ⟨m, hm2⟩) "blocking" (ids.get ⟨n, hn2⟩)) = 0 := by
      refine count_eq_zero_of_kind_ne "parenttask" _ ?_ _ (by simp)
      intro rel hrel
      exact (subtaskRelations_mem _ _ rel hrel).2
    rw [processRefs_count_rel, hz1, hz2, hcp]
    omega
  · rw [hbatch, relationPhase_count_at _ _ m hmc _ (hside _ rfl), hgm, taskRelations_rels]
    dsimp only
    rw [List.count_append, List.count_append]
    have hz1 : (processRefs (buildRefMap (createAll tasks ids)) (ids.get ⟨m, hm2⟩)
        "blocked" "blocked_by" (tasks.get ⟨m, hm⟩).blocked_by).1.count
        (Relation.mk (ids.get ⟨m, hm2⟩) "parenttask" (ids.get ⟨n, hn2⟩)) = 0 := by
      refine count_eq_zero_of_kind_ne "blocked" _ ?_ _ (by simp)
      intro rel hrel
      exact (processRefs_mem _ _ _ _ _ rel hrel).2
    have hz2 : (processRefs (buildRefMap (createAll tasks ids)) (ids.get ⟨m, hm2⟩)
        "blocking" "blocks" (tasks.get ⟨m, hm⟩).blocks).1.count
        (Relation.mk (ids.get ⟨m, hm2⟩) "parenttask" (ids.get ⟨n, hn2⟩)) = 0 := by
      refine count_eq_zero_of_kind_ne "blocking" _ ?_ _ (by simp)
      intro rel hrel
      exact (processRefs_mem _ _ _ _ _ rel hrel).2
    rw [hz1, hz2]
    simp only [Nat.zero_add, Nat.add_zero]
    unfold subtaskRelations
    dsimp only
    cases hs : (tasks.get ⟨m, hm⟩).subtask_of with
    | none => simp
    | some pr =>
        dsimp only
        by_cases hpr : pr = ""
        · subst hpr
          rw [if_pos rfl]
          have hrne : ¬ (some "" = some r) := by
            intro he
            exact hne (Option.some_injective _ he).symm
          simp [hrne]
        · rw [if_neg hpr]
          cases hg : assocGet (buildRefMap (createAll tasks ids)) pr with
          | none =>
              have hprr : ¬ (some pr = some r) := by
                intro he
                have : pr = r := Option.some_injective _ he
                subst this
                rw [hresolve] at hg
                simp at hg
              simp [hprr]
          | some pid =>
              by_cases hpid : pid = ids.get ⟨n, hn2⟩
              · subst hpid
                have hprr : pr = r := hinj pr hg
                subst hprr
                simp [hresolve, List.count_cons]
              · have hprr : ¬ (some pr = some r) := by
                  intro he
                  have : pr = r := Option.some_injective _ he
                  subst this
                  rw [hresolve] at hg
                  exact hpid (Option.some_injective _ hg).symm
                have hrelne : Relation.mk (ids.get ⟨m, hm2⟩) "parenttask" pid ≠
                    Relation.mk (ids.get ⟨m, hm2⟩) "parenttask" (ids.get ⟨n, hn2⟩) := by
                  intro he
                  injection he with h1 h2 h3
                  exact hpid h3
                simp [hprr, List.count_cons, hrelne]
                intro he
                exact hpid (by simpa using he)

/-- Claim C6 witness: the specification's forward-reference example — task B
listed before task A, with B blocked by A's ref — resolves and yields
exactly one "blocked" relation from B to A. -/
theorem C6_forward_references_witness :
    assocGet (buildRefMap (createAll
        [{ title := "B", ref := some "b", blocked_by := ["a"] },
         { title := "A", ref := some "a" }] [10, 20])) "a" = some 20 ∧
    (batchCreateRelations
        [{ title := "B", ref := some "b", blocked_by := ["a"] },
         { title := "A", ref := some "a" }] [10, 20]).relations.count
      (Relation.mk 10 "blocked" 20) = 1 := by
  have h := C6_forward_references
    [{ title := "B", ref := some "b", blocked_by := ["a"] },
     { title := "A", ref := some "a" }] [10, 20]
    rfl (by decide) (by decide) 0 1 (by decide) (by decide) (by decide) (by decide)
    "a" rfl (by decide)
  exact ⟨h.1.trans (by decide), h.2.1.trans (by decide)⟩
